import Mathlib

/-!
# Verification of `converter_core.py` (dialectometry-converter)

A shallow embedding of the Gabmap ↔ Diatech converter core.  Python strings
are modelled as Lean `String`, byte buffers as `List Nat` (each < 256),
Python `float` as `ℚ` with explicit decimal parsing/formatting, Python
`dict` (insertion ordered) as association lists, and the XML trees consumed
and produced by `xml.etree.ElementTree` as an inductive tree type.
Fallible paths (uncaught Python exceptions) are modelled with `Option`.
-/

namespace Conv

/-! ## Python string primitives -/

/-- Whitespace characters recognised by Python's `str.strip()` /
`str.split()` (Unicode whitespace). -/
def isPySpace (c : Char) : Bool :=
  c.toNat = 32 || c.toNat = 9 || c.toNat = 10 || c.toNat = 13 ||
  c.toNat = 11 || c.toNat = 12 || c.toNat = 28 || c.toNat = 29 ||
  c.toNat = 30 || c.toNat = 31 || c.toNat = 0x85 || c.toNat = 0xa0 ||
  c.toNat = 0x1680 || (0x2000 ≤ c.toNat && c.toNat ≤ 0x200a) ||
  c.toNat = 0x2028 || c.toNat = 0x2029 || c.toNat = 0x202f ||
  c.toNat = 0x205f || c.toNat = 0x3000
/-- `str.strip()`: drop leading and trailing whitespace. -/
def pyStrip (s : String) : String :=
  String.mk ((s.data.dropWhile isPySpace).reverse.dropWhile isPySpace).reverse

/-- `str.strip(ch)`: drop leading and trailing copies of one character. -/
def pyStripChar (ch : Char) (s : String) : String :=
  String.mk ((s.data.dropWhile (· = ch)).reverse.dropWhile (· = ch)).reverse

/-- `str.splitlines()` terminators: `\r\n`, `\r`, `\n` and the other
line break characters Python recognises. -/
def isPyLineBreak (c : Char) : Bool :=
  c.toNat = 10 || c.toNat = 13 || c.toNat = 11 || c.toNat = 12 ||
  c.toNat = 28 || c.toNat = 29 || c.toNat = 30 || c.toNat = 0x85 ||
  c.toNat = 0x2028 || c.toNat = 0x2029

def pySplitlinesAux : List Char → List Char → List String
  | cur, [] => if cur.isEmpty then [] else [String.mk cur]
  | cur, ['\r'] => [String.mk cur]
  | cur, '\r' :: '\n' :: rest => String.mk cur :: pySplitlinesAux [] rest
  | cur, '\r' :: c :: rest => String.mk cur :: pySplitlinesAux [] (c :: rest)
  | cur, c :: rest =>
    if isPyLineBreak c then String.mk cur :: pySplitlinesAux [] rest
    else pySplitlinesAux (cur ++ [c]) rest

def pySplitlines (s : String) : List String := pySplitlinesAux [] s.data

/-- `str.split()` with no argument: split on runs of whitespace, no empty
tokens. -/
def pySplitWsAux : List Char → List Char → List String
  | cur, [] => if cur.isEmpty then [] else [String.mk cur]
  | cur, c :: rest =>
    if isPySpace c then
      if cur.isEmpty then pySplitWsAux [] rest
      else String.mk cur :: pySplitWsAux [] rest
    else pySplitWsAux (cur ++ [c]) rest

def pySplitWs (s : String) : List String := pySplitWsAux [] s.data

/-- `str.lower()` on one character, exact for every code point up to
`0xFF` (ASCII `A`–`Z` and Latin-1 `À`–`Þ` except `×` shift by 32, the
rest of that range is fixed).  Python also lowercases letters beyond
Latin-1 (e.g. `Ā` → `ā`); this embedding leaves them unchanged, so every
theorem whose truth depends on name normalisation restricts the names it
quantifies over to the Latin-1 range. -/
def pyLowerChar (c : Char) : Char :=
  if 'A' ≤ c ∧ c ≤ 'Z' then Char.ofNat (c.toNat + 32)
  else if 0xC0 ≤ c.toNat ∧ c.toNat ≤ 0xDE ∧ c.toNat ≠ 0xD7 then Char.ofNat (c.toNat + 32)
  else c

def pyLower (s : String) : String := String.mk (s.data.map pyLowerChar)

/-- `str.split(sep)` with a one-character separator (empty fields kept). -/
def pySplitCharAux (sep : Char) : List Char → List Char → List String
  | cur, [] => [String.mk cur]
  | cur, c :: rest =>
    if c = sep then String.mk cur :: pySplitCharAux sep [] rest
    else pySplitCharAux sep (cur ++ [c]) rest

def pySplitChar (sep : Char) (s : String) : List String :=
  pySplitCharAux sep [] s.data

/-- Concatenation of a list of strings (sequential `output.write`). -/
def strConcat : List String → String
  | [] => ""
  | x :: r => x ++ strConcat r

/-- `'\t'.join`-style joining with a separator. -/
def joinSep (sep : String) : List String → String
  | [] => ""
  | [x] => x
  | x :: xs => x ++ sep ++ joinSep sep xs

/-- Membership of a character in a string, decidably. -/
def strHas (c : Char) (s : String) : Bool := s.data.contains c

/-! ## Association lists (Python `dict`, insertion ordered) -/

def alistGet {α : Type} (k : String) : List (String × α) → Option α
  | [] => none
  | (k', v) :: r => if k' = k then some v else alistGet k r

/-- Replace the value at the first occurrence of `k` (no-op when absent). -/
def alistSet {α : Type} (k : String) (v : α) : List (String × α) → List (String × α)
  | [] => []
  | (k', v') :: r => if k' = k then (k', v) :: r else (k', v') :: alistSet k v r

/-- `d[k] = v` on a Python dict: update in place when present, append
otherwise. -/
def alistUpsert {α : Type} (k : String) (v : α) (l : List (String × α)) :
    List (String × α) :=
  if (alistGet k l).isSome then alistSet k v l else l ++ [(k, v)]

def alistKeys {α : Type} (l : List (String × α)) : List String := l.map Prod.fst

/-- Lexicographic codepoint comparison (Python string `≤`). -/
def lexLe : List Char → List Char → Bool
  | [], _ => true
  | _ :: _, [] => false
  | a :: as, b :: bs =>
    if a.toNat < b.toNat then true
    else if a.toNat = b.toNat then lexLe as bs else false

def strLeB (a b : String) : Bool := lexLe a.data b.data

def insertSorted (x : String) : List String → List String
  | [] => [x]
  | y :: r => if strLeB x y then x :: y :: r else y :: insertSorted x r

/-- Stable insertion sort of strings by the codepoint order (Python
`sorted`). -/
def sortStrings : List String → List String
  | [] => []
  | x :: r => insertSorted x (sortStrings r)

/-! ## Python `float` as exact decimals

`float(s)` is modelled as exact decimal parsing, `str(f)` / f-string
formatting as shortest-decimal printing.  On the decimal literals occurring
in coordinate fields this coincides with CPython's shortest-repr round-trip
behaviour.  A reduced fraction type is used rather than `ℚ` so that all
values evaluate inside the kernel. -/

def natGcdAux : Nat → Nat → Nat → Nat
  | 0, _, b => b
  | fuel + 1, a, b => if a = 0 then b else natGcdAux fuel (b % a) a

def natGcd (a b : Nat) : Nat := natGcdAux (a + 1) a b

/-- Exact value of a Python float: a fraction in lowest terms. -/
structure PyFloat where
  num : Int
  den : Nat
deriving DecidableEq, Repr

def mkPyFloat (n : Int) (d : Nat) : PyFloat :=
  let g := natGcd n.natAbs d
  ⟨n / (g : Int), d / g⟩

def digitChar (n : Nat) : Char := Char.ofNat (48 + n % 10)

def natDigitsAux : Nat → Nat → List Char
  | 0, _ => []
  | fuel + 1, n =>
    if n < 10 then [digitChar n]
    else natDigitsAux fuel (n / 10) ++ [digitChar (n % 10)]

/-- Decimal digits of a natural number, most significant first. -/
def natDigits (n : Nat) : List Char := natDigitsAux (n + 1) n

def digitsToNat (cs : List Char) : Nat :=
  cs.foldl (fun acc c => acc * 10 + (c.toNat - 48)) 0

/-- The optional exponent suffix of `float(s)` applied to a mantissa. -/
def parseFloatExp (signedMantNum : Int) (mantDen : Nat) :
    List Char → Option PyFloat
  | [] => some (mkPyFloat signedMantNum mantDen)
  | 'e' :: r | 'E' :: r =>
    let (esgn, r) : Bool × List Char :=
      match r with
      | '-' :: r' => (true, r')
      | '+' :: r' => (false, r')
      | _ => (false, r)
    let edig := r.takeWhile Char.isDigit
    let rest := r.dropWhile Char.isDigit
    if edig.isEmpty ∨ ¬ rest.isEmpty then none
    else
      let e := digitsToNat edig
      some (if esgn then mkPyFloat signedMantNum (mantDen * 10 ^ e)
        else mkPyFloat (signedMantNum * (10 ^ e : Nat)) mantDen)
  | _ => none

/-- The `[. digits]` part of the mantissa: fraction digits, the remainder,
and whether a dot was seen. -/
def parseFloatFrac : List Char → List Char × List Char × Bool
  | '.' :: r => (r.takeWhile Char.isDigit, r.dropWhile Char.isDigit, true)
  | cs1 => ([], cs1, false)

/-- The mantissa grammar of `float(s)`: `digits [. digits] | . digits`,
then an optional exponent. -/
def parseFloatMant (neg : Bool) (cs : List Char) : Option PyFloat :=
  let ipart := cs.takeWhile Char.isDigit
  let fc := parseFloatFrac (cs.dropWhile Char.isDigit)
  let fpart := fc.1
  if ipart.isEmpty ∧ (fpart.isEmpty ∨ ¬ fc.2.2) then none
  else
    let mantNum : Nat := digitsToNat ipart * 10 ^ fpart.length + digitsToNat fpart
    let mantDen : Nat := 10 ^ fpart.length
    parseFloatExp (if neg then -(mantNum : Int) else (mantNum : Int)) mantDen fc.2.1

/-- Strict decimal parser underlying `float(s)`:
`[+-] (digits [. digits] | . digits) [eE [+-] digits]`. -/
def parseFloatCore (cs : List Char) : Option PyFloat :=
  match cs with
  | '-' :: r => parseFloatMant true r
  | '+' :: r => parseFloatMant false r
  | _ => parseFloatMant false cs

/-- `float(s)` (surrounding whitespace allowed, as in CPython).  CPython
additionally accepts the spellings `inf`/`infinity`/`nan` (which have no
exact rational value), underscore digit grouping such as `1_0`, and
non-ASCII decimal digits; this embedding rejects those, so every theorem
whose truth depends on the failure of `float()` restricts the digit
strings it quantifies over to exclude them (ASCII, no underscore, no
letter besides the exponent markers `e`/`E`). -/
def pyFloat (s : String) : Option PyFloat := parseFloatCore (pyStrip s).data

/-- Least `k` with `d ∣ 10 ^ k`, searched upward with explicit fuel. -/
def leastPow10 (d : Nat) : Nat → Nat → Nat
  | k, 0 => k
  | k, fuel + 1 => if 10 ^ k % d = 0 then k else leastPow10 d (k + 1) fuel

/-- The fractional digits of a formatted float: `k` digits, or a single
`0` when the value is integral. -/
def formatQFrac (k fp : Nat) : List Char :=
  if k = 0 then ['0']
  else List.replicate (k - (natDigits fp).length) '0' ++ natDigits fp

/-- The characters of a formatted float. -/
def formatQData (q : PyFloat) : List Char :=
  (if q.num < 0 then ['-'] else []) ++
    natDigits (q.num.natAbs * 10 ^ leastPow10 q.den 0 q.den / q.den /
      10 ^ leastPow10 q.den 0 q.den) ++
    '.' :: formatQFrac (leastPow10 q.den 0 q.den)
      (q.num.natAbs * 10 ^ leastPow10 q.den 0 q.den / q.den %
        10 ^ leastPow10 q.den 0 q.den)

/-- `repr(f)` / f-string formatting of a float: sign, integer part, a dot,
and the fractional digits (a single `0` when the value is integral). -/
def formatQ (q : PyFloat) : String :=
  String.mk (formatQData q)

/-! ## `csv.reader` on a single line (`delimiter=';'`, `quotechar='"'`)

The state machine of CPython's csv module in its default non-strict mode:
a quote is special only at field start; a doubled quote inside a quoted
field is a literal quote; after a closing quote, further characters are
appended verbatim. -/

inductive CsvState where
  | start
  | inField
  | inQuoted
  | quoteSeen

def csvRun : CsvState → List Char → List Char → List String
  | _, acc, [] => [String.mk acc]
  | .start, acc, c :: rest =>
    if c = '"' then csvRun .inQuoted acc rest
    else if c = ';' then String.mk acc :: csvRun .start [] rest
    else csvRun .inField (acc ++ [c]) rest
  | .inField, acc, c :: rest =>
    if c = ';' then String.mk acc :: csvRun .start [] rest
    else csvRun .inField (acc ++ [c]) rest
  | .inQuoted, acc, c :: rest =>
    if c = '"' then csvRun .quoteSeen acc rest
    else csvRun .inQuoted (acc ++ [c]) rest
  | .quoteSeen, acc, c :: rest =>
    if c = '"' then csvRun .inQuoted (acc ++ ['"']) rest
    else if c = ';' then String.mk acc :: csvRun .start [] rest
    else csvRun .inField (acc ++ [c]) rest

/-- `next(csv.reader(io.StringIO(line), delimiter=';', quotechar='"'))`:
`none` models the `StopIteration` raised on an empty line. -/
def csvNextRow (line : String) : Option (List String) :=
  if line = "" then none else some (csvRun .start [] line.data)

/-- Quote a field the way `create_diatech_csv_bytes` does (plain
double-quote wrapping, no escaping). -/
def qwrap (s : String) : String := "\"" ++ s ++ "\""

/-! ## The Diatech header pattern

`re.match(r'^"?(.+?)\[([0-9.-]+)\s*,\s*([0-9.-]+)\]"?$', col)`, embedded
directly: the optional leading quote is consumed greedily, the lazy group
scans for the leftmost `[` whose tail matches
`num-run , num-run ] "? end` (with optional whitespace around the comma),
with backtracking to the unconsumed-quote alternative. -/

def isNumClassChar (c : Char) : Bool :=
  (48 ≤ c.toNat && c.toNat ≤ 57) || c = '.' || c = '-'

/-- Match `([0-9.-]+)\s*,\s*([0-9.-]+)\]"?$` against the characters after
the opening bracket, returning the two numeric groups. -/
def tailCoordMatch (cs : List Char) : Option (String × String) :=
  let a := cs.takeWhile isNumClassChar
  let r1 := cs.dropWhile isNumClassChar
  if a.isEmpty then none
  else
    match r1.dropWhile isPySpace with
    | ',' :: r3 =>
      let r4 := r3.dropWhile isPySpace
      let b := r4.takeWhile isNumClassChar
      let r5 := r4.dropWhile isNumClassChar
      if b.isEmpty then none
      else
        match r5 with
        | [']'] => some (String.mk a, String.mk b)
        | [']', '"'] => some (String.mk a, String.mk b)
        | _ => none
    | _ => none

/-- Scan for the leftmost viable `[` (the lazy `(.+?)`); the group before
it must be nonempty. -/
def regexScan : List Char → List Char → Option (String × String × String)
  | _, [] => none
  | acc, c :: rs =>
    if c = '[' ∧ ¬ acc.isEmpty then
      match tailCoordMatch rs with
      | some (a, b) => some (String.mk acc, a, b)
      | none => regexScan (acc ++ [c]) rs
    else regexScan (acc ++ [c]) rs

def regexHeaderMatch (s : String) : Option (String × String × String) :=
  match s.data with
  | '"' :: rest =>
    (match regexScan [] rest with
     | some r => some r
     | none => regexScan [] s.data)
  | _ => regexScan [] s.data

/-! ## XML trees (`xml.etree.ElementTree`)

KML documents are modelled at the level `ET.parse` delivers them: an
element tree with a tag, the element's text, and its children, namespaces
resolved.  `find`/`findall` with a `.//` path walk the descendants in
document (preorder) order; without it they inspect direct children. -/

mutual

inductive Xml where
  | elem (tag : String) (text : Option String) (children : XmlForest)

inductive XmlForest where
  | nil
  | cons (head : Xml) (tail : XmlForest)

end

def xmlForestOf : List Xml → XmlForest
  | [] => .nil
  | x :: r => .cons x (xmlForestOf r)

def xmlForestToList : XmlForest → List Xml
  | .nil => []
  | .cons h t => h :: xmlForestToList t

/-- Element constructor taking the children as a plain list. -/
def xelem (tag : String) (text : Option String) (children : List Xml) : Xml :=
  .elem tag text (xmlForestOf children)

def Xml.tagOf : Xml → String
  | .elem t _ _ => t

def Xml.textOf : Xml → Option String
  | .elem _ t _ => t

def Xml.childrenList : Xml → List Xml
  | .elem _ _ cs => xmlForestToList cs

/-- Preorder (document-order) traversal of a forest. -/
def xmlForestDesc : XmlForest → List Xml
  | .nil => []
  | .cons (.elem t x cs) rest =>
    .elem t x cs :: (xmlForestDesc cs ++ xmlForestDesc rest)

/-- The descendants of a node in document order (the node excluded). -/
def xmlDescendants : Xml → List Xml
  | .elem _ _ cs => xmlForestDesc cs

/-- `node.findall('.//kml:TAG', ns)`. -/
def findallDesc (tag : String) (x : Xml) : List Xml :=
  (xmlDescendants x).filter (fun e => e.tagOf = tag)

/-- `node.find('.//kml:TAG', ns)`. -/
def findDesc (tag : String) (x : Xml) : Option Xml :=
  (findallDesc tag x).head?

/-- `node.find('kml:TAG', ns)` (direct children only). -/
def findChild (tag : String) (x : Xml) : Option Xml :=
  ((x.childrenList).filter (fun e => e.tagOf = tag)).head?

/-! ## Text codecs

The byte-level front end of `read_dialec_txt_from_bytes`.  Decoders map a
byte buffer to the decoded codepoint sequence, `none` modelling a
`UnicodeDecodeError`.  Latin-1 accepts every byte string, which is what
makes the chain total. -/

def validCodepoint (n : Nat) : Bool :=
  n < 0x110000 && (n < 0xD800 || 0xE000 ≤ n)

def cpsToString (l : List Nat) : String :=
  String.mk (l.map Char.ofNat)

/-- Strict UTF-8 decoding (overlong forms, surrogates and out-of-range
codepoints rejected). -/
def utf8DecodeAux : List Nat → Option (List Nat)
  | [] => some []
  | b :: rest =>
    if b < 0x80 then (utf8DecodeAux rest).map (b :: ·)
    else if b < 0xC0 then none
    else if b < 0xE0 then
      match rest with
      | b1 :: r =>
        if 0x80 ≤ b1 ∧ b1 < 0xC0 then
          let cp := (b - 0xC0) * 64 + (b1 - 0x80)
          if cp < 0x80 then none else (utf8DecodeAux r).map (cp :: ·)
        else none
      | [] => none
    else if b < 0xF0 then
      match rest with
      | b1 :: b2 :: r =>
        if (0x80 ≤ b1 ∧ b1 < 0xC0) ∧ (0x80 ≤ b2 ∧ b2 < 0xC0) then
          let cp := (b - 0xE0) * 4096 + (b1 - 0x80) * 64 + (b2 - 0x80)
          if cp < 0x800 ∨ (0xD800 ≤ cp ∧ cp < 0xE000) then none
          else (utf8DecodeAux r).map (cp :: ·)
        else none
      | _ => none
    else if b < 0xF8 then
      match rest with
      | b1 :: b2 :: b3 :: r =>
        if (0x80 ≤ b1 ∧ b1 < 0xC0) ∧ (0x80 ≤ b2 ∧ b2 < 0xC0) ∧
            (0x80 ≤ b3 ∧ b3 < 0xC0) then
          let cp := (b - 0xF0) * 262144 + (b1 - 0x80) * 4096 +
            (b2 - 0x80) * 64 + (b3 - 0x80)
          if cp < 0x10000 ∨ 0x10FFFF < cp then none
          else (utf8DecodeAux r).map (cp :: ·)
        else none
      | _ => none
    else none

def utf8Decode (b : List Nat) : Option String :=
  (utf8DecodeAux b).map cpsToString

/-- `utf-8-sig`: UTF-8 with an optional byte-order mark stripped. -/
def utf8SigDecode (b : List Nat) : Option String :=
  match b with
  | 0xEF :: 0xBB :: 0xBF :: rest => utf8Decode rest
  | _ => utf8Decode b

def utf16Units (le : Bool) : List Nat → Option (List Nat)
  | [] => some []
  | [_] => none
  | b0 :: b1 :: r =>
    let u := if le then b0 + 256 * b1 else 256 * b0 + b1
    (utf16Units le r).map (u :: ·)

def utf16Pair : List Nat → Option (List Nat)
  | [] => some []
  | u :: r =>
    if u < 0xD800 ∨ 0xE000 ≤ u then (utf16Pair r).map (u :: ·)
    else if u < 0xDC00 then
      match r with
      | u2 :: r2 =>
        if 0xDC00 ≤ u2 ∧ u2 < 0xE000 then
          (utf16Pair r2).map ((0x10000 + (u - 0xD800) * 1024 + (u2 - 0xDC00)) :: ·)
        else none
      | [] => none
    else none

/-- `utf-16`: byte-order mark honoured and stripped; little-endian without
one (CPython's native order on the deployment platforms). -/
def utf16Decode (b : List Nat) : Option String :=
  let (le, body) : Bool × List Nat :=
    match b with
    | 0xFF :: 0xFE :: rest => (true, rest)
    | 0xFE :: 0xFF :: rest => (false, rest)
    | _ => (true, b)
  ((utf16Units le body).bind utf16Pair).map cpsToString

/-- `latin-1`: total, byte value = codepoint. -/
def latin1Decode (b : List Nat) : Option String :=
  some (cpsToString b)

/-- `cp1252`: Windows-1252; five byte values are unassigned and raise. -/
def cp1252Map (b : Nat) : Option Nat :=
  if b = 0x80 then some 0x20AC else if b = 0x82 then some 0x201A
  else if b = 0x83 then some 0x0192 else if b = 0x84 then some 0x201E
  else if b = 0x85 then some 0x2026 else if b = 0x86 then some 0x2020
  else if b = 0x87 then some 0x2021 else if b = 0x88 then some 0x02C6
  else if b = 0x89 then some 0x2030 else if b = 0x8A then some 0x0160
  else if b = 0x8B then some 0x2039 else if b = 0x8C then some 0x0152
  else if b = 0x8E then some 0x017D else if b = 0x91 then some 0x2018
  else if b = 0x92 then some 0x2019 else if b = 0x93 then some 0x201C
  else if b = 0x94 then some 0x201D else if b = 0x95 then some 0x2022
  else if b = 0x96 then some 0x2013 else if b = 0x97 then some 0x2014
  else if b = 0x98 then some 0x02DC else if b = 0x99 then some 0x2122
  else if b = 0x9A then some 0x0161 else if b = 0x9B then some 0x203A
  else if b = 0x9C then some 0x0153 else if b = 0x9E then some 0x017E
  else if b = 0x9F then some 0x0178
  else if b = 0x81 ∨ b = 0x8D ∨ b = 0x8F ∨ b = 0x90 ∨ b = 0x9D then none
  else some b

def cp1252Decode (b : List Nat) : Option String :=
  (b.mapM cp1252Map).map cpsToString

/-- `bytes.decode('utf-8', errors='ignore')`: strict UTF-8 with invalid
bytes dropped one at a time.  (Unreachable in practice: latin-1 always
succeeds first.) -/
def lossyUtf8Aux : Nat → List Nat → List Nat
  | 0, _ => []
  | _, [] => []
  | fuel + 1, b :: rest =>
    if b < 0x80 then b :: lossyUtf8Aux fuel rest
    else if 0xC0 ≤ b ∧ b < 0xE0 then
      match rest with
      | b1 :: r =>
        if (0x80 ≤ b1 ∧ b1 < 0xC0) ∧ 0x80 ≤ (b - 0xC0) * 64 + (b1 - 0x80) then
          ((b - 0xC0) * 64 + (b1 - 0x80)) :: lossyUtf8Aux fuel r
        else lossyUtf8Aux fuel rest
      | [] => []
    else if 0xE0 ≤ b ∧ b < 0xF0 then
      match rest with
      | b1 :: b2 :: r =>
        let cp := (b - 0xE0) * 4096 + (b1 - 0x80) * 64 + (b2 - 0x80)
        if (0x80 ≤ b1 ∧ b1 < 0xC0) ∧ (0x80 ≤ b2 ∧ b2 < 0xC0) ∧
            0x800 ≤ cp ∧ (cp < 0xD800 ∨ 0xE000 ≤ cp) then
          cp :: lossyUtf8Aux fuel r
        else lossyUtf8Aux fuel rest
      | _ => lossyUtf8Aux fuel rest
    else if 0xF0 ≤ b ∧ b < 0xF8 then
      match rest with
      | b1 :: b2 :: b3 :: r =>
        let cp := (b - 0xF0) * 262144 + (b1 - 0x80) * 4096 +
          (b2 - 0x80) * 64 + (b3 - 0x80)
        if (0x80 ≤ b1 ∧ b1 < 0xC0) ∧ (0x80 ≤ b2 ∧ b2 < 0xC0) ∧
            (0x80 ≤ b3 ∧ b3 < 0xC0) ∧ 0x10000 ≤ cp ∧ cp ≤ 0x10FFFF then
          cp :: lossyUtf8Aux fuel r
        else lossyUtf8Aux fuel rest
      | _ => lossyUtf8Aux fuel rest
    else lossyUtf8Aux fuel rest

def lossyUtf8Decode (b : List Nat) : String :=
  cpsToString (lossyUtf8Aux (b.length + 1) b)

/-- The ordered candidate encodings of `read_dialec_txt_from_bytes`:
`['utf-8-sig', 'utf-16', 'utf-8', 'latin-1', 'cp1252']`. -/
def decodeAttempt : Nat → List Nat → Option String
  | 0, b => utf8SigDecode b
  | 1, b => utf16Decode b
  | 2, b => utf8Decode b
  | 3, b => latin1Decode b
  | 4, b => cp1252Decode b
  | _, _ => none

/-- First decoding attempt (by index) that succeeds. -/
def firstDecode (b : List Nat) : Option String :=
  utf8SigDecode b <|> utf16Decode b <|> utf8Decode b <|>
    latin1Decode b <|> cp1252Decode b

/-- UTF-8 encoding, used to build concrete byte inputs. -/
def utf8EncodeChar (n : Nat) : List Nat :=
  if n < 0x80 then [n]
  else if n < 0x800 then [0xC0 + n / 64, 0x80 + n % 64]
  else if n < 0x10000 then [0xE0 + n / 4096, 0x80 + n / 64 % 64, 0x80 + n % 64]
  else [0xF0 + n / 262144, 0x80 + n / 4096 % 64, 0x80 + n / 64 % 64, 0x80 + n % 64]

def utf8Encode (s : String) : List Nat :=
  s.data.flatMap (fun c => utf8EncodeChar c.toNat)

/-! ## The converter core (`converter_core.py`)

Each Python function is embedded over the decoded representations above.
`Option` results model uncaught exceptions. -/

/-- The value stored per locality by `parse_kml_from_bytes`. -/
structure KmlInfo where
  lat : PyFloat
  lon : PyFloat
  code : String
deriving DecidableEq, Repr

/-- The value stored per locality by `read_diatech_csv_from_bytes`
(coordinates may be unknown). -/
structure GeoPt where
  lat : Option PyFloat
  lon : Option PyFloat
deriving DecidableEq, Repr

/-- One `Placemark` iteration of `parse_kml_from_bytes`; `none` models the
`AttributeError` raised when a present `coordinates` element has no text. -/
def parseKmlStep (loc : List (String × KmlInfo)) (pm : Xml) :
    Option (List (String × KmlInfo)) :=
  if (findDesc "Polygon" pm).isSome then some loc
  else
    match findChild "name" pm, findDesc "coordinates" pm with
    | some nameEl, some coordsEl =>
      let nombre := match nameEl.textOf with
        | some t => pyStrip t
        | none => ""
      let descripcion := match findChild "description" pm with
        | some d => (match d.textOf with | some t => pyStrip t | none => "")
        | none => ""
      match coordsEl.textOf with
      | none => none
      | some t =>
        let coordsStr := pyStrip t
        if coordsStr = "" then some loc
        else
          let firstCoord := if strHas ' ' coordsStr then (pySplitWs coordsStr).headD ""
            else coordsStr
          let parts := pySplitChar ',' firstCoord
          if 2 ≤ parts.length then
            match pyFloat (parts.getD 0 ""), pyFloat (parts.getD 1 "") with
            | some lon, some lat =>
              some (alistUpsert nombre ⟨lat, lon, descripcion⟩ loc)
            | _, _ => some loc
          else some loc
    | _, _ => some loc

/-- `parse_kml_from_bytes`, over the parsed element tree. -/
def parse_kml_from_tree (root : Xml) : Option (List (String × KmlInfo)) :=
  (findallDesc "Placemark" root).foldlM parseKmlStep []

/-- The column-count adjustment of `read_dialec_txt_from_bytes`. -/
def adjustVariants (conceptos : List String) (vs : List String) : List String :=
  if conceptos.length < vs.length then vs.take conceptos.length
  else vs ++ List.replicate (conceptos.length - vs.length) ""

def parseDialecLines (conceptos : List String) :
    List String → List (String × List String) → List (String × List String)
  | [], datos => datos
  | line :: rest, datos =>
    let parts := pySplitChar '\t' (pyStrip line)
    if 2 ≤ parts.length then
      let nombre := pyStrip (parts.headD "")
      parseDialecLines conceptos rest
        (alistUpsert nombre (adjustVariants conceptos (parts.drop 1)) datos)
    else parseDialecLines conceptos rest datos

/-- `read_dialec_txt_from_bytes` after a successful decode. -/
def parseDialecStr (s : String) : List String × List (String × List String) :=
  let lines := pySplitlines s
  let conceptos :=
    match lines with
    | [] => []
    | l0 :: _ =>
      let cs := pySplitChar '\t' (pyStrip l0)
      if ¬ cs.isEmpty ∧ pyStrip (cs.headD "") = "" then cs.drop 1 else cs
  (conceptos, parseDialecLines conceptos (lines.drop 1) [])

/-- `read_dialec_txt_from_bytes`: first successful candidate encoding, with
the lossy UTF-8 fallback. -/
def read_dialec_txt_from_bytes (b : List Nat) :
    List String × List (String × List String) :=
  match firstDecode b with
  | some s => parseDialecStr s
  | none => parseDialecStr (lossyUtf8Decode b)

/-- `normalize_name`. -/
def normalize_name (s : String) : String := pyStrip (pyLower s)

/-- `create_diatech_csv_bytes` (the `txt_filename` argument is unused in
the source body and omitted). -/
def create_diatech_csv_bytes (conceptos : List String)
    (datos : List (String × List String))
    (localidades_kml : List (String × KmlInfo)) : String :=
  let normMap : List (String × (String × KmlInfo)) :=
    localidades_kml.foldl
      (fun m p => alistUpsert (normalize_name p.1) (p.1, p.2) m) []
  let nombres := alistKeys datos
  let encabezados := nombres.map (fun n =>
    match alistGet (normalize_name n) normMap with
    | some (orig, info) =>
      qwrap (orig ++ "[" ++ formatQ info.lat ++ "," ++ formatQ info.lon ++ "]")
    | none => qwrap n)
  let headerLine := qwrap "" ++ ";" ++ joinSep ";" encabezados ++ "\r\n"
  let field := fun (i : Nat) (n : String) =>
    match alistGet n datos with
    | some vs =>
      if i < vs.length then
        (if vs.getD i "" ≠ "" then qwrap (vs.getD i "") else qwrap "")
      else qwrap ""
    | none => qwrap ""
  let body := strConcat (conceptos.enum.map (fun p =>
    qwrap p.2 ++ ";" ++ joinSep ";" (nombres.map (field p.1)) ++ "\r\n"))
  headerLine ++ body

/-- `extract_country_boundaries_bytes` (the `kml_filename` argument is
unused in the source body and omitted). -/
def extract_country_boundaries_bytes (root : Xml) : Option String :=
  match findallDesc "Polygon" root with
  | [] => none
  | poly :: _ =>
    match findDesc "coordinates" poly with
    | none => none
    | some el =>
      match el.textOf with
      | none => none
      | some t =>
        if t = "" then none
        else
          let coordPairs := pySplitWs (pyStrip t)
          let vertexLines := coordPairs.filterMap (fun cp =>
            let parts := pySplitChar ',' cp
            if 2 ≤ parts.length then
              some (qwrap (pyStrip (parts.getD 0 "")) ++ ";" ++
                qwrap (pyStrip (parts.getD 1 "")))
            else none)
          some (strConcat (vertexLines.map (· ++ "\r\n")))

structure GabmapStats where
  conceptos : Nat
  localidades : Nat
  localidades_con_coordenadas : Nat
  coincidencias : Nat
  faltantes : Nat
  faltantes_lista : List String
deriving DecidableEq, Repr

/-- Python `set(...)` over a list: distinct elements (first occurrences). -/
def listDedup : List String → List String → List String
  | _, [] => []
  | seen, x :: r =>
    if seen.contains x then listDedup seen r else x :: listDedup (x :: seen) r

/-- `convert_gabmap_to_diatech`: `none` models the uncaught exception from
`parse_kml_from_bytes`. -/
def convert_gabmap_to_diatech (txt_bytes : List Nat) (kml_root : Xml) :
    Option (String × Option String × GabmapStats) :=
  let (conceptos, datos) := read_dialec_txt_from_bytes txt_bytes
  (parse_kml_from_tree kml_root).map fun localidades_kml =>
    let csv := create_diatech_csv_bytes conceptos datos localidades_kml
    let boundaries := extract_country_boundaries_bytes kml_root
    let nombres_txt := listDedup [] ((alistKeys datos).map normalize_name)
    let nombres_kml := listDedup [] ((alistKeys localidades_kml).map normalize_name)
    let coincidencias := nombres_txt.filter (fun n => nombres_kml.contains n)
    let faltantes := nombres_txt.filter (fun n => ¬ nombres_kml.contains n)
    (csv, boundaries,
      ⟨conceptos.length, datos.length, localidades_kml.length,
        coincidencias.length, faltantes.length, (sortStrings faltantes).take 10⟩)

/-- One header column of `read_diatech_csv_from_bytes`; `none` models the
uncaught `ValueError` when `float()` rejects a regex group. -/
def readDiatechHeaderCol (acc : List String × List (String × GeoPt))
    (col : String) : Option (List String × List (String × GeoPt)) :=
  match regexHeaderMatch col with
  | some (g1, latS, lonS) =>
    let nombre_completo := pyStripChar '"' g1
    match pyFloat latS, pyFloat lonS with
    | some lat, some lon =>
      let nombre := pyStrip ((pySplitChar ',' nombre_completo).headD "")
      some (acc.1 ++ [nombre], alistUpsert nombre ⟨some lat, some lon⟩ acc.2)
    | _, _ => none
  | none =>
    let nombre0 := pyStripChar '"' col
    let nombre := if strHas '[' nombre0 ∧ strHas ']' nombre0 then
        pyStrip ((pySplitChar '[' nombre0).headD "")
      else nombre0
    some (acc.1 ++ [nombre], alistUpsert nombre ⟨none, none⟩ acc.2)

/-- Grow a variant list with empty strings up to the concept count
(`while len(datos[n]) < len(conceptos): append('')`). -/
def growTo (len : Nat) (vs : List String) : List String :=
  vs ++ List.replicate (len - vs.length) ""

/-- One positional cell assignment of `read_diatech_csv_from_bytes`:
ensure the locality exists, grow its list to the concept count, and set
the last position to the quote/whitespace-stripped variant. -/
def diatechAssign (names conceptos : List String)
    (d : List (String × List String)) (p : Nat × String) :
    List (String × List String) :=
  if p.1 < names.length then
    let n := names.getD p.1 ""
    let d1 := if (alistGet n d).isSome then d else d ++ [(n, [])]
    let vs := (alistGet n d1).getD []
    let vs1 := (growTo conceptos.length vs).set (conceptos.length - 1)
      (pyStrip (pyStripChar '"' p.2))
    alistSet n vs1 d1
  else d

/-- One data line of `read_diatech_csv_from_bytes`; `none` models the
`StopIteration` escaping from `next(reader)` on an empty line. -/
def readDiatechRow (names : List String)
    (st : List String × List (String × List String)) (line : String) :
    Option (List String × List (String × List String)) :=
  match csvNextRow line with
  | none => none
  | some [] => some st
  | some (r0 :: restCols) =>
    let concepto := pyStrip (pyStripChar '"' (pyStrip r0))
    if concepto = "" then some st
    else
      let conceptos := st.1 ++ [concepto]
      some (conceptos, restCols.enum.foldl (diatechAssign names conceptos) st.2)

/-- `read_diatech_csv_from_bytes` over the decoded CSV text. -/
def read_diatech_csv_from_str (s : String) :
    Option (List String × List (String × List String) × List (String × GeoPt)) :=
  let lines := pySplitlines s
  match lines with
  | [] => some ([], [], [])
  | l0 :: rest =>
    match csvNextRow l0 with
    | none => none
    | some header =>
      (header.drop 1).foldlM readDiatechHeaderCol ([], []) >>= fun hdr =>
        (rest.foldlM (readDiatechRow hdr.1) ([], [])).map fun cd =>
          (cd.1, cd.2, hdr.2)

/-- The name clean-up of `create_gabmap_txt_bytes`: the bracket and
department markers are stripped only when both `[` and `]` occur. -/
def cleanLocalityName (n : String) : String :=
  if strHas '[' n ∧ strHas ']' n then
    pyStrip ((pySplitChar ',' (pyStrip ((pySplitChar '[' n).headD ""))).headD "")
  else n

/-- One locality line of `create_gabmap_txt_bytes`: pad the stored list in
place (the Python `while ... append('')` on the aliased list), then emit
the cleaned name and the tab-joined variants. -/
def gabmapLocalityStep (conceptos : List String)
    (acc : String × List (String × List String)) (n : String) :
    String × List (String × List String) :=
  let vs := (alistGet n acc.2).getD []
  let vs1 := growTo conceptos.length vs
  let d1 := alistSet n vs1 acc.2
  (acc.1 ++ (cleanLocalityName n ++ "\t" ++ joinSep "\t" vs1 ++ "\r\n"), d1)

/-- `create_gabmap_txt_bytes`.  Besides the rendered TXT it returns the
final state of `datos`: the Python function pads the stored variant lists
in place, so the caller's table can change. -/
def create_gabmap_txt_bytes (conceptos : List String)
    (datos : List (String × List String)) :
    String × List (String × List String) :=
  (sortStrings (alistKeys datos)).foldl (gabmapLocalityStep conceptos)
    (joinSep "\t" conceptos ++ "\r\n", datos)

/-- `create_kml_bytes`, producing the element tree that is then serialised
by `ET.tostring`. -/
def create_kml_bytes (localidades : List (String × GeoPt))
    (boundaries_bytes : Option String) : Xml :=
  let placemarks := localidades.map (fun p =>
    let children := match p.2.lat, p.2.lon with
      | some la, some lo =>
        [xelem "name" (some p.1) [],
         xelem "Point" none
           [xelem "coordinates" (some (formatQ lo ++ "," ++ formatQ la ++ ",0")) []]]
      | _, _ => [xelem "name" (some p.1) []]
    xelem "Placemark" none children)
  let boundary : List Xml := match boundaries_bytes with
    | some bs =>
      if bs ≠ "" then
        let lines := pySplitlines (pyStrip bs)
        if ¬ lines.isEmpty then
          let coords_list := lines.filterMap (fun line =>
            let parts := pySplitChar ';' (pyStrip line)
            if 2 ≤ parts.length then
              some (pyStripChar '"' (parts.getD 0 "") ++ "," ++
                pyStripChar '"' (parts.getD 1 "") ++ ",0")
            else none)
          [xelem "Placemark" none
            [xelem "name" (some "Boundaries") [],
             xelem "Polygon" none
               [xelem "outerBoundaryIs" none
                 [xelem "LinearRing" none
                   [xelem "coordinates" (some (joinSep " " coords_list)) []]]]]]
        else []
      else []
    | none => []
  xelem "kml" none [xelem "Document" none (placemarks ++ boundary)]

structure DiatechStats where
  conceptos : Nat
  localidades : Nat
  localidades_con_coordenadas : Nat
deriving DecidableEq, Repr

/-- `convert_diatech_to_gabmap` (`csv_filename` unused and omitted). -/
def convert_diatech_to_gabmap (csv : String) (boundaries : Option String) :
    Option (String × Xml × DiatechStats) :=
  (read_diatech_csv_from_str csv).map fun r =>
    let conceptos := r.1
    let datos := r.2.1
    let localidades := r.2.2
    let txtd := create_gabmap_txt_bytes conceptos datos
    let kml := create_kml_bytes localidades boundaries
    let nCoords := (localidades.filter
      (fun p => p.2.lat.isSome && p.2.lon.isSome)).length
    (txtd.1, kml, ⟨conceptos.length, txtd.2.length, nCoords⟩)

/-! ## Concrete inputs used by the claims -/

/-- The TXT bytes of the end-to-end scenario. -/
def scenarioTxtBytes : List Nat := utf8Encode "\tCASA\tAGUA\nBogotá\tcasa1\tagua1\n"

/-- The KML of the end-to-end scenario: one Point placemark named
"Bogotá" at longitude -74.1, latitude 4.5. -/
def scenarioKml : Xml :=
  xelem "kml" none [xelem "Document" none
    [xelem "Placemark" none
      [xelem "name" (some "Bogotá") [],
       xelem "Point" none
         [xelem "coordinates" (some "-74.1,4.5,0") []]]]]

/-- The expected Diatech CSV of the end-to-end scenario. -/
def scenarioCsv : String :=
  "\"\";\"Bogotá[4.5,-74.1]\"\r\n\"CASA\";\"casa1\"\r\n\"AGUA\";\"agua1\"\r\n"

/-! ## Theorems -/

/-- **C2.** End-to-end: the TXT bytes `"\tCASA\tAGUA\nBogotá\tcasa1\tagua1\n"`
together with a KML holding one Point placemark "Bogotá" at longitude
-74.1, latitude 4.5 convert to exactly the CSV whose header line is
`"";"Bogotá[4.5,-74.1]"` and whose body rows are `"CASA";"casa1"` and
`"AGUA";"agua1"`, all CRLF-terminated, with no boundaries file and stats
conceptos=2, localidades=1, localidades_con_coordenadas=1, faltantes=0. -/
theorem C2_end_to_end :
    convert_gabmap_to_diatech scenarioTxtBytes scenarioKml =
      some (scenarioCsv, none,
        { conceptos := 2, localidades := 1, localidades_con_coordenadas := 1,
          coincidencias := 1, faltantes := 0, faltantes_lista := [] }) := by
  decide

/-- **C5.** Header decomposition: the field `"Villa[4.5,-74.1]"` yields
locality "Villa" with latitude 4.5 and longitude -74.1, and
`"Villa, Cundinamarca[4.5,-74.1]"` yields the same name (department
suffix dropped) with the same coordinates. -/
theorem C5_header_decomposition :
    read_diatech_csv_from_str "\"\";\"Villa[4.5,-74.1]\"" =
      some ([], [], [("Villa", ⟨some ⟨9, 2⟩, some ⟨-741, 10⟩⟩)]) ∧
    read_diatech_csv_from_str "\"\";\"Villa, Cundinamarca[4.5,-74.1]\"" =
      some ([], [], [("Villa", ⟨some ⟨9, 2⟩, some ⟨-741, 10⟩⟩)]) :=
  ⟨by decide, by decide⟩

/-- The Gabmap TXT bytes `"\tA\nL\t x\n"`: one concept `A`, one locality
`L` whose variant carries a leading space. -/
def c1TxtBytes : List Nat := utf8Encode "\tA\nL\t x\n"

/-- A KML with no placemarks at all. -/
def emptyKml : Xml := xelem "kml" none []

/-- The CSV produced from `c1TxtBytes` with `emptyKml`. -/
def c1Csv : String := "\"\";\"L\"\r\n\"A\";\" x\"\r\n"

/-- **C1, counterexample.** Feeding the TXT `"\tA\nL\t x\n"` (variant
`" x"` with a leading space) through the two conversions yields the TXT
line `L→x`: the reverse reader strips quotes and whitespace from every
variant, so locality `L` does not keep its original variant sequence
`[" x"]` and the difference is not a mere reordering of locality lines. -/
theorem C1_counterexample :
    read_dialec_txt_from_bytes c1TxtBytes = (["A"], [("L", [" x"])]) ∧
    convert_gabmap_to_diatech c1TxtBytes emptyKml =
      some (c1Csv, none,
        { conceptos := 1, localidades := 1, localidades_con_coordenadas := 0,
          coincidencias := 0, faltantes := 1, faltantes_lista := ["l"] }) ∧
    (convert_diatech_to_gabmap c1Csv none).map (fun r => (r.1, r.2.2)) =
      some ("A\r\nL\tx\r\n",
        { conceptos := 1, localidades := 1, localidades_con_coordenadas := 0 }) ∧
    "A\r\nL\tx\r\n" ≠ "A\r\nL\t x\r\n" :=
  ⟨by decide, by decide, by decide, by decide⟩

/-- A Diatech CSV whose second data row is shorter than the header. -/
def c3Csv : String :=
  "\"\";\"A[1,2]\";\"B[3,4]\"\r\n\"c1\";\"a\";\"b\"\r\n\"c2\";\"x\"\r\n"

/-- **C3, counterexample.** After reading a CSV whose second data row has
no field for locality `B`, `B`'s variant list has length 1 while the
concept list has length 2: the Diatech reader does not pad previously seen
localities when a later row is short. -/
theorem C3_counterexample :
    read_diatech_csv_from_str c3Csv =
      some (["c1", "c2"],
        [("A", ["a", "x"]), ("B", ["b"])],
        [("A", ⟨some ⟨1, 1⟩, some ⟨2, 1⟩⟩), ("B", ⟨some ⟨3, 1⟩, some ⟨4, 1⟩⟩)]) ∧
    (["b"] : List String).length ≠ (["c1", "c2"] : List String).length :=
  ⟨by decide, by decide⟩

/-- **C4, counterexample.** `create_gabmap_txt_bytes` pads the stored
variant lists in place: with two concepts and the table `{L: ["x"]}` the
table observed after the call is `{L: ["x", ""]}`, not the argument
value. -/
theorem C4_counterexample :
    create_gabmap_txt_bytes ["A", "B"] [("L", ["x"])] =
      ("A\tB\r\nL\tx\t\r\n", [("L", ["x", ""])]) ∧
    ([("L", ["x", ""])] : List (String × List String)) ≠ [("L", ["x"])] :=
  ⟨by decide, by decide⟩

/-- **C6, counterexample.** A locality name of the form `"Name, Department"`
with no bracketed part is written unchanged by `create_gabmap_txt_bytes`:
the department suffix is stripped only when the name also carries `[` and
`]`. -/
theorem C6_counterexample :
    (create_gabmap_txt_bytes ["A"] [("Villa, Cundinamarca", ["x"])]).1 =
      "A\r\nVilla, Cundinamarca\tx\r\n" ∧
    "A\r\nVilla, Cundinamarca\tx\r\n" ≠ "A\r\nVilla\tx\r\n" :=
  ⟨by decide, by decide⟩

/-- A KML whose only polygon has the unparseable coordinates text `"x"`. -/
def c7Kml : Xml :=
  xelem "kml" none [xelem "Placemark" none
    [xelem "Polygon" none [xelem "coordinates" (some "x") []]]]

/-- **C7, counterexample.** When the first polygon's coordinates text is
non-empty but yields no vertex with two comma-separated parts,
`extract_country_boundaries_bytes` returns an empty byte string, not the
absent value. -/
theorem C7_counterexample :
    extract_country_boundaries_bytes c7Kml = some "" ∧
    (some "" : Option String) ≠ none :=
  ⟨by decide, by decide⟩

/-- A Point placemark whose coordinate triples are separated by a newline
but by no space character. -/
def c8Kml : Xml :=
  xelem "kml" none [xelem "Document" none
    [xelem "Placemark" none
      [xelem "name" (some "X") [],
       xelem "Point" none
         [xelem "coordinates" (some "1.0,2.0\n3.0,4.0") []]]]]

/-- **C8, counterexample.** With coordinate triples separated only by a
newline, `parse_kml_from_bytes` does not record the locality from the
first triple: the splitting is guarded by `' ' in coords_str`, so the
whole text is handed to `float()` and the placemark is skipped. -/
theorem C8_counterexample :
    parse_kml_from_tree c8Kml = some [] ∧
    alistGet "X" ([] : List (String × KmlInfo)) = none :=
  ⟨by decide, by decide⟩

/-- **C9.** `read_dialec_txt_from_bytes` is total over byte buffers: some
attempt among `utf-8-sig, utf-16, utf-8, latin-1, cp1252` (tried in that
index order) succeeds, every earlier attempt fails, and the result is the
parse of that first successful decoding — the latin-1 candidate accepts
every byte string, so the decode-failure branch is unreachable. -/
theorem C9_total_ordered_decode (b : List Nat) (_hb : ∀ x ∈ b, x < 256) :
    ∃ i s, i < 5 ∧ decodeAttempt i b = some s ∧
      (∀ j, j < i → decodeAttempt j b = none) ∧
      read_dialec_txt_from_bytes b = parseDialecStr s := by
  cases h0 : utf8SigDecode b with
  | some s =>
    refine ⟨0, s, by omega, h0, fun j hj => absurd hj (by omega), ?_⟩
    simp [read_dialec_txt_from_bytes, firstDecode, h0]
  | none =>
    cases h1 : utf16Decode b with
    | some s =>
      refine ⟨1, s, by omega, h1, ?_, ?_⟩
      · intro j hj
        have hj0 : j = 0 := by omega
        simpa [hj0, decodeAttempt] using h0
      · simp [read_dialec_txt_from_bytes, firstDecode, h0, h1]
    | none =>
      cases h2 : utf8Decode b with
      | some s =>
        refine ⟨2, s, by omega, h2, ?_, ?_⟩
        · intro j hj
          have hj' : j = 0 ∨ j = 1 := by omega
          rcases hj' with rfl | rfl
          · simpa [decodeAttempt] using h0
          · simpa [decodeAttempt] using h1
        · simp [read_dialec_txt_from_bytes, firstDecode, h0, h1, h2]
      | none =>
        refine ⟨3, cpsToString b, by omega, rfl, ?_, ?_⟩
        · intro j hj
          have hj' : j = 0 ∨ j = 1 ∨ j = 2 := by omega
          rcases hj' with rfl | rfl | rfl
          · simpa [decodeAttempt] using h0
          · simpa [decodeAttempt] using h1
          · simpa [decodeAttempt] using h2
        · simp [read_dialec_txt_from_bytes, firstDecode, h0, h1, h2, latin1Decode]

/-- Witness for C9 at the concrete byte buffer `[0x41]`. -/
theorem C9_total_ordered_decode_witness :
    ∃ i s, i < 5 ∧ decodeAttempt i [0x41] = some s ∧
      (∀ j, j < i → decodeAttempt j [0x41] = none) ∧
      read_dialec_txt_from_bytes [0x41] = parseDialecStr s :=
  C9_total_ordered_decode [0x41] (by decide)

/-! ## Support lemmas -/

lemma data_append (a b : String) : (a ++ b).data = a.data ++ b.data := rfl

lemma qwrap_data (s : String) : (qwrap s).data = '"' :: s.data ++ ['"'] := by
  simp [qwrap, data_append]

lemma isPySpace_of_isPyLineBreak {c : Char} (h : isPyLineBreak c = true) :
    isPySpace c = true := by
  simp only [isPyLineBreak, isPySpace, Bool.or_eq_true, Bool.and_eq_true,
    decide_eq_true_eq] at *
  omega

lemma ne_cr_of_not_break {c : Char} (h : isPyLineBreak c = false) : c ≠ '\r' := by
  intro hc
  subst hc
  simp [isPyLineBreak] at h

/-- Characters of a `pyStrip` result come from the input. -/
lemma mem_of_mem_pyStrip {s : String} {c : Char} (h : c ∈ (pyStrip s).data) :
    c ∈ s.data := by
  simp only [pyStrip] at h
  have h1 := List.mem_reverse.mp h
  have h2 := (s.data.dropWhile isPySpace).reverse.dropWhile_sublist isPySpace
  have h3 := h2.subset h1
  have h4 := List.mem_reverse.mp h3
  exact (s.data.dropWhile_sublist isPySpace).subset h4

/-- Characters of `pySplitChar` fields come from the accumulator or the
input. -/
lemma pySplitCharAux_chars (sep : Char) :
    ∀ (cs cur : List Char) (tok : String), tok ∈ pySplitCharAux sep cur cs →
      ∀ c ∈ tok.data, c ∈ cur ∨ c ∈ cs := by
  intro cs
  induction cs with
  | nil =>
    intro cur tok htok c hc
    simp only [pySplitCharAux, List.mem_singleton] at htok
    subst htok
    exact Or.inl hc
  | cons x rest ih =>
    intro cur tok htok c hc
    simp only [pySplitCharAux] at htok
    by_cases hx : x = sep
    · rw [if_pos hx] at htok
      rcases List.mem_cons.mp htok with rfl | htok'
      · exact Or.inl hc
      · rcases ih [] tok htok' c hc with h | h
        · exact absurd h (List.not_mem_nil c)
        · exact Or.inr (List.mem_cons_of_mem x h)
    · rw [if_neg hx] at htok
      rcases ih (cur ++ [x]) tok htok c hc with h | h
      · rcases List.mem_append.mp h with h' | h'
        · exact Or.inl h'
        · exact Or.inr (List.mem_cons.mpr (Or.inl (List.mem_singleton.mp h')))
      · exact Or.inr (List.mem_cons_of_mem x h)

lemma pySplitChar_chars {sep : Char} {s tok : String}
    (htok : tok ∈ pySplitChar sep s) {c : Char} (hc : c ∈ tok.data) :
    c ∈ s.data := by
  rcases pySplitCharAux_chars sep s.data [] tok htok c hc with h | h
  · exact absurd h (List.not_mem_nil c)
  · exact h

/-- Whitespace-split tokens contain no whitespace characters. -/
lemma pySplitWsAux_chars :
    ∀ (cs cur : List Char), (∀ c ∈ cur, isPySpace c = false) →
      ∀ tok ∈ pySplitWsAux cur cs, ∀ c ∈ tok.data, isPySpace c = false := by
  intro cs
  induction cs with
  | nil =>
    intro cur hcur tok htok c hc
    simp only [pySplitWsAux] at htok
    by_cases he : cur.isEmpty
    · simp [he] at htok
    · rw [if_neg he] at htok
      rcases List.mem_singleton.mp htok with rfl
      exact hcur c hc
  | cons x rest ih =>
    intro cur hcur tok htok c hc
    simp only [pySplitWsAux] at htok
    by_cases hx : isPySpace x
    · rw [if_pos hx] at htok
      by_cases he : cur.isEmpty
      · rw [if_pos he] at htok
        exact ih [] (by simp) tok htok c hc
      · rw [if_neg he] at htok
        rcases List.mem_cons.mp htok with rfl | htok'
        · exact hcur c hc
        · exact ih [] (by simp) tok htok' c hc
    · rw [if_neg hx] at htok
      refine ih (cur ++ [x]) ?_ tok htok c hc
      intro d hd
      rcases List.mem_append.mp hd with h' | h'
      · exact hcur d h'
      · rw [List.mem_singleton.mp h']
        exact Bool.of_not_eq_true hx

lemma pySplitWs_chars {s tok : String} (htok : tok ∈ pySplitWs s) {c : Char}
    (hc : c ∈ tok.data) : isPySpace c = false :=
  pySplitWsAux_chars s.data [] (by simp) tok htok c hc

/-- A break-free head character is appended to the current line. -/
lemma pySplitlinesAux_cons_no_break (cur : List Char) {x : Char}
    (rest : List Char) (hx : isPyLineBreak x = false) :
    pySplitlinesAux cur (x :: rest) = pySplitlinesAux (cur ++ [x]) rest := by
  have hxr : x ≠ '\r' := ne_cr_of_not_break hx
  cases rest with
  | nil => simp [pySplitlinesAux, hx, hxr]
  | cons y ys => simp [pySplitlinesAux, hx, hxr]

/-- `splitlines` consumes one CRLF-terminated break-free line at a time. -/
lemma pySplitlinesAux_append (cs : List Char)
    (hcs : ∀ c ∈ cs, isPyLineBreak c = false) (cur rest : List Char) :
    pySplitlinesAux cur (cs ++ '\r' :: '\n' :: rest) =
      String.mk (cur ++ cs) :: pySplitlinesAux [] rest := by
  induction cs generalizing cur with
  | nil => simp [pySplitlinesAux]
  | cons x cs' ih =>
    have hx : isPyLineBreak x = false := hcs x (List.mem_cons_self x cs')
    rw [List.cons_append, pySplitlinesAux_cons_no_break cur _ hx,
      ih (fun c hc => hcs c (List.mem_cons_of_mem x hc)) (cur ++ [x])]
    simp

lemma pySplitlines_strConcat (lines : List String)
    (h : ∀ l ∈ lines, ∀ c ∈ l.data, isPyLineBreak c = false) :
    pySplitlines (strConcat (lines.map (· ++ "\r\n"))) = lines := by
  induction lines with
  | nil => rfl
  | cons l ls ih =>
    have hl : ∀ c ∈ l.data, isPyLineBreak c = false :=
      h l (List.mem_cons_self l ls)
    have hconcat : (strConcat ((l :: ls).map (· ++ "\r\n"))).data =
        l.data ++ '\r' :: '\n' :: (strConcat (ls.map (· ++ "\r\n"))).data := by
      simp [strConcat, data_append]
    unfold pySplitlines
    rw [hconcat, pySplitlinesAux_append l.data hl []]
    have : String.mk ([] ++ l.data) = l := by simp
    rw [this]
    exact congrArg (l :: ·) (ih (fun m hm => h m (List.mem_cons_of_mem l hm)))

lemma not_break_of_not_space {c : Char} (h : isPySpace c = false) :
    isPyLineBreak c = false := by
  cases hb : isPyLineBreak c with
  | false => rfl
  | true => rw [isPySpace_of_isPyLineBreak hb] at h; exact absurd h (by simp)

lemma getD_mem_or {α : Type} (l : List α) (i : Nat) (d : α) :
    l.getD i d ∈ l ∨ l.getD i d = d := by
  induction l generalizing i with
  | nil => exact Or.inr rfl
  | cons x r ih =>
    cases i with
    | zero => exact Or.inl (List.mem_cons_self x r)
    | succ j =>
      rcases ih j with h | h
      · exact Or.inl (List.mem_cons_of_mem x h)
      · exact Or.inr h

/-! ## C7: boundaries extraction -/

/-- The vertex lines of a boundaries file, as a function of the polygon's
coordinates text: one `"longitude";"latitude"` entry per
whitespace-separated token holding at least two comma-separated parts. -/
def boundaryVertexLines (t : String) : List String :=
  (pySplitWs (pyStrip t)).filterMap (fun cp =>
    let parts := pySplitChar ',' cp
    if 2 ≤ parts.length then
      some (qwrap (pyStrip (parts.getD 0 "")) ++ ";" ++
        qwrap (pyStrip (parts.getD 1 "")))
    else none)

lemma boundaryVertexLines_break_free (t : String) :
    ∀ l ∈ boundaryVertexLines t, ∀ c ∈ l.data, isPyLineBreak c = false := by
  intro l hl c hc
  rcases List.mem_filterMap.mp hl with ⟨cp, hcp, hline⟩
  simp only at hline
  by_cases hlen : 2 ≤ (pySplitChar ',' cp).length
  · rw [if_pos hlen] at hline
    have hl' := Option.some.inj hline
    subst hl'
    have htokfree : ∀ d ∈ cp.data, isPySpace d = false :=
      fun d hd => pySplitWs_chars hcp hd
    have hpartfree : ∀ (i : Nat) (d : Char),
        d ∈ (pyStrip ((pySplitChar ',' cp).getD i "")).data →
          isPyLineBreak d = false := by
      intro i d hd
      have hd1 := mem_of_mem_pyStrip hd
      rcases getD_mem_or (pySplitChar ',' cp) i "" with hmem | hnil
      · exact not_break_of_not_space (htokfree d (pySplitChar_chars hmem hd1))
      · rw [hnil] at hd1
        exact absurd hd1 (List.not_mem_nil d)
    rw [data_append, data_append, qwrap_data, qwrap_data] at hc
    rcases List.mem_append.mp hc with hc1 | hc2
    · rcases List.mem_append.mp hc1 with hc3 | hc4
      · rcases List.mem_cons.mp hc3 with rfl | hc5
        · decide
        · rcases List.mem_append.mp hc5 with hc6 | hc7
          · exact hpartfree 0 c hc6
          · rw [List.mem_singleton.mp hc7]; decide
      · have hc' : c = ';' := List.mem_singleton.mp hc4
        rw [hc']; decide
    · rcases List.mem_cons.mp hc2 with rfl | hc5
      · decide
      · rcases List.mem_append.mp hc5 with hc6 | hc7
        · exact hpartfree 1 c hc6
        · rw [List.mem_singleton.mp hc7]; decide
  · rw [if_neg hlen] at hline
    exact absurd hline (by simp)

/-- **C7, amended.** `extract_country_boundaries_bytes` returns the absent
value when the KML has no polygon, or when the first polygon has no
coordinates element or an empty coordinates text; when it does return a
file, that file consists of one CRLF-terminated `"longitude";"latitude"`
line per parseable vertex of the coordinates text — and is the empty byte
string (not the absent value) when no token has two comma-separated
parts. -/
theorem C7_amended (tree : Xml) :
    (findallDesc "Polygon" tree = [] →
      extract_country_boundaries_bytes tree = none) ∧
    (∀ out, extract_country_boundaries_bytes tree = some out →
      ∃ poly rest el t, findallDesc "Polygon" tree = poly :: rest ∧
        findDesc "coordinates" poly = some el ∧ el.textOf = some t ∧
        t ≠ "" ∧
        out = strConcat ((boundaryVertexLines t).map (· ++ "\r\n")) ∧
        pySplitlines out = boundaryVertexLines t) := by
  constructor
  · intro h
    simp [extract_country_boundaries_bytes, h]
  · intro out hout
    unfold extract_country_boundaries_bytes at hout
    split at hout
    · exact absurd hout (by simp)
    · rename_i poly rest hpoly
      split at hout
      · exact absurd hout (by simp)
      · rename_i el hel
        split at hout
        · exact absurd hout (by simp)
        · rename_i t htext
          split at hout
          · exact absurd hout (by simp)
          · rename_i ht
            have hval : out = strConcat ((boundaryVertexLines t).map (· ++ "\r\n")) :=
              (Option.some.inj hout).symm
            refine ⟨poly, rest, el, t, hpoly, hel, htext, ht, hval, ?_⟩
            rw [hval]
            exact pySplitlines_strConcat _ (boundaryVertexLines_break_free t)

/-- Witness for C7's amended theorem at the concrete polygon-bearing KML
`c7Kml` (coordinates text `"x"`). -/
theorem C7_amended_witness :
    ∃ poly rest el t, findallDesc "Polygon" c7Kml = poly :: rest ∧
      findDesc "coordinates" poly = some el ∧ el.textOf = some t ∧
      t ≠ "" ∧
      "" = strConcat ((boundaryVertexLines t).map (· ++ "\r\n")) ∧
      pySplitlines "" = boundaryVertexLines t :=
  (C7_amended c7Kml).2 "" (by decide)

/-! ## C8: first coordinate triple -/

/-- A KML holding exactly one Point placemark with the given name and
coordinates text. -/
def pointPlacemarkKml (nm cs : String) : Xml :=
  xelem "kml" none [xelem "Document" none
    [xelem "Placemark" none
      [xelem "name" (some nm) [],
       xelem "Point" none [xelem "coordinates" (some cs) []]]]]

/-- Longitude/latitude of a single `lon,lat[,...]` token. -/
def parseCoordToken (tok : String) : Option (PyFloat × PyFloat) :=
  let parts := pySplitChar ',' tok
  if 2 ≤ parts.length then
    match pyFloat (parts.getD 0 ""), pyFloat (parts.getD 1 "") with
    | some lon, some lat => some (lon, lat)
    | _, _ => none
  else none

/-- **C8, amended.** Only when the (stripped) coordinates text contains a
space character does `parse_kml_from_bytes` split it on whitespace and use
the first token: the locality is recorded from the first triple when that
token parses as `lon,lat[,...]`, and the placemark is skipped otherwise.
The coordinate text is restricted to ASCII without underscores or letters
other than the exponent markers `e`/`E`, the domain on which the embedded
`float()` agrees with CPython (which additionally accepts `inf`/`nan`
spellings and underscore digit grouping).  (Triples separated by non-space
whitespace such as newlines are not split, which makes `float()` fail on
the combined text and the placemark be dropped, per the counterexample.) -/
theorem C8_amended (nm cs : String) (h : ' ' ∈ (pyStrip cs).data)
    (_hfl : ∀ ch ∈ cs.data, ch.toNat < 128 ∧ ch ≠ '_' ∧
      (ch.isAlpha = true → ch = 'e' ∨ ch = 'E')) :
    parse_kml_from_tree (pointPlacemarkKml nm cs) =
      some (match parseCoordToken ((pySplitWs (pyStrip cs)).headD "") with
        | some (lon, lat) => [(pyStrip nm, ⟨lat, lon, ""⟩)]
        | none => []) := by
  have hne : pyStrip cs ≠ "" := by
    intro h0
    rw [h0] at h
    exact absurd h (List.not_mem_nil _)
  have hhas : strHas ' ' (pyStrip cs) = true := by
    exact List.elem_eq_true_of_mem h
  have hstep : parseKmlStep []
      (xelem "Placemark" none
        [xelem "name" (some nm) [],
         xelem "Point" none [xelem "coordinates" (some cs) []]]) =
      some (match parseCoordToken ((pySplitWs (pyStrip cs)).headD "") with
        | some (lon, lat) => [(pyStrip nm, ⟨lat, lon, ""⟩)]
        | none => []) := by
    simp only [parseKmlStep,
      show findDesc "Polygon"
        (xelem "Placemark" none
          [xelem "name" (some nm) [],
           xelem "Point" none [xelem "coordinates" (some cs) []]]) = none
        from rfl,
      show findChild "name"
        (xelem "Placemark" none
          [xelem "name" (some nm) [],
           xelem "Point" none [xelem "coordinates" (some cs) []]]) =
        some (xelem "name" (some nm) []) from rfl,
      show findDesc "coordinates"
        (xelem "Placemark" none
          [xelem "name" (some nm) [],
           xelem "Point" none [xelem "coordinates" (some cs) []]]) =
        some (xelem "coordinates" (some cs) []) from rfl,
      show findChild "description"
        (xelem "Placemark" none
          [xelem "name" (some nm) [],
           xelem "Point" none [xelem "coordinates" (some cs) []]]) = none
        from rfl,
      show (xelem "name" (some nm) []).textOf = some nm from rfl,
      show (xelem "coordinates" (some cs) []).textOf = some cs from rfl,
      Option.isSome_none, Bool.false_eq_true, if_false]
    rw [if_neg hne, if_pos hhas]
    unfold parseCoordToken
    by_cases hlen :
        2 ≤ (pySplitChar ',' ((pySplitWs (pyStrip cs)).headD "")).length
    · rw [if_pos hlen, if_pos hlen]
      cases h0 : pyFloat ((pySplitChar ','
          ((pySplitWs (pyStrip cs)).headD "")).getD 0 "") with
      | none => rfl
      | some lon =>
        cases h1 : pyFloat ((pySplitChar ','
            ((pySplitWs (pyStrip cs)).headD "")).getD 1 "") with
        | none => rfl
        | some lat => rfl
    · rw [if_neg hlen, if_neg hlen]
  have htree : findallDesc "Placemark" (pointPlacemarkKml nm cs) =
      [xelem "Placemark" none
        [xelem "name" (some nm) [],
         xelem "Point" none [xelem "coordinates" (some cs) []]]] := rfl
  unfold parse_kml_from_tree
  rw [htree, List.foldlM_cons, hstep]
  simp

/-- Witness for C8's amended theorem at the space-separated coordinates
text `"1.0,2.0 3.0,4.0"`. -/
theorem C8_amended_witness :
    parse_kml_from_tree (pointPlacemarkKml "X" "1.0,2.0 3.0,4.0") =
      some (match parseCoordToken
          ((pySplitWs (pyStrip "1.0,2.0 3.0,4.0")).headD "") with
        | some (lon, lat) => [(pyStrip "X", ⟨lat, lon, ""⟩)]
        | none => []) :=
  C8_amended "X" "1.0,2.0 3.0,4.0" (by decide) (by decide)

/-! ## Association list lemmas -/

lemma alistGet_some_mem {α : Type} {k : String} {v : α} :
    ∀ {l : List (String × α)}, alistGet k l = some v → (k, v) ∈ l := by
  intro l
  induction l with
  | nil => intro h; exact absurd h (by simp [alistGet])
  | cons p r ih =>
    intro h
    rw [show alistGet k (p :: r) =
        if p.1 = k then some p.2 else alistGet k r from rfl] at h
    by_cases hk : p.1 = k
    · rw [if_pos hk] at h
      subst hk
      rw [← Option.some.inj h]
      exact List.mem_cons_self p r
    · rw [if_neg hk] at h
      exact List.mem_cons_of_mem p (ih h)

lemma alistSet_of_get_none {α : Type} {k : String} (v : α) :
    ∀ {l : List (String × α)}, alistGet k l = none → alistSet k v l = l := by
  intro l
  induction l with
  | nil => intro _; rfl
  | cons p r ih =>
    intro h
    rw [show alistGet k (p :: r) =
        if p.1 = k then some p.2 else alistGet k r from rfl] at h
    by_cases hk : p.1 = k
    · rw [if_pos hk] at h; exact absurd h (by simp)
    · rw [if_neg hk] at h
      show (if p.1 = k then _ else p :: alistSet k v r) = p :: r
      rw [if_neg hk, ih h]

lemma alistSet_self {α : Type} {k : String} {v : α} :
    ∀ {l : List (String × α)}, alistGet k l = some v → alistSet k v l = l := by
  intro l
  induction l with
  | nil => intro h; exact absurd h (by simp [alistGet])
  | cons p r ih =>
    intro h
    rw [show alistGet k (p :: r) =
        if p.1 = k then some p.2 else alistGet k r from rfl] at h
    by_cases hk : p.1 = k
    · rw [if_pos hk] at h
      show (if p.1 = k then (p.1, v) :: r else _) = p :: r
      rw [if_pos hk, ← Option.some.inj h]
    · rw [if_neg hk] at h
      show (if p.1 = k then _ else p :: alistSet k v r) = p :: r
      rw [if_neg hk, ih h]

/-- Entries after an `alistSet` are old entries or carry the new value. -/
lemma mem_alistSet {α : Type} {k : String} {v : α} :
    ∀ {l : List (String × α)} {p : String × α}, p ∈ alistSet k v l →
      p ∈ l ∨ p.2 = v := by
  intro l
  induction l with
  | nil => intro p h; exact absurd h (List.not_mem_nil p)
  | cons q r ih =>
    intro p h
    rw [show alistSet k v (q :: r) =
        if q.1 = k then (q.1, v) :: r else q :: alistSet k v r from rfl] at h
    by_cases hk : q.1 = k
    · rw [if_pos hk] at h
      rcases List.mem_cons.mp h with rfl | h'
      · exact Or.inr rfl
      · exact Or.inl (List.mem_cons_of_mem q h')
    · rw [if_neg hk] at h
      rcases List.mem_cons.mp h with rfl | h'
      · exact Or.inl (List.mem_cons_self _ _)
      · rcases ih h' with h'' | h''
        · exact Or.inl (List.mem_cons_of_mem _ h'')
        · exact Or.inr h''

/-- Entries after an `alistUpsert` are old entries or carry the new
value. -/
lemma mem_alistUpsert {α : Type} {k : String} {v : α}
    {l : List (String × α)} {p : String × α} (h : p ∈ alistUpsert k v l) :
    p ∈ l ∨ p.2 = v := by
  unfold alistUpsert at h
  by_cases hg : (alistGet k l).isSome
  · rw [if_pos hg] at h
    exact mem_alistSet h
  · rw [if_neg hg] at h
    rcases List.mem_append.mp h with h' | h'
    · exact Or.inl h'
    · rw [List.mem_singleton.mp h']
      exact Or.inr rfl

lemma growTo_of_le {len : Nat} {vs : List String} (h : len ≤ vs.length) :
    growTo len vs = vs := by
  unfold growTo
  rw [Nat.sub_eq_zero_of_le h]
  simp

lemma growTo_length {len : Nat} {vs : List String} (h : vs.length ≤ len) :
    (growTo len vs).length = len := by
  unfold growTo
  simp
  omega

/-! ## C4: argument (non-)mutation of the writer -/

/-- **C4, amended.** `create_gabmap_txt_bytes` returns the `LocalityTable`
unchanged exactly when no padding is needed: whenever every stored variant
list already has length at least `len(ConceptList)`, the table after the
call equals the argument.  (When some list is shorter the function grows
it in place — the counterexample — and the other core functions build
fresh values and leave their arguments untouched.) -/
theorem C4_amended (c : List String) (d : List (String × List String))
    (h : ∀ p ∈ d, c.length ≤ (p.2).length) :
    (create_gabmap_txt_bytes c d).2 = d := by
  unfold create_gabmap_txt_bytes
  have main : ∀ (keys : List String) (s : String),
      (keys.foldl (gabmapLocalityStep c) (s, d)).2 = d := by
    intro keys
    induction keys with
    | nil => intro s; rfl
    | cons n rest ih =>
      intro s
      rw [List.foldl_cons]
      have hstep : gabmapLocalityStep c (s, d) n =
          ((gabmapLocalityStep c (s, d) n).1, d) := by
        unfold gabmapLocalityStep
        cases hg : alistGet n d with
        | none =>
          simp only [hg, Option.getD_none]
          rw [alistSet_of_get_none _ hg]
        | some vs =>
          have hle : c.length ≤ vs.length := h (n, vs) (alistGet_some_mem hg)
          simp only [hg, Option.getD_some]
          rw [growTo_of_le hle, alistSet_self hg]
      rw [hstep]
      exact ih _
  exact main _ _

/-- Witness for C4's amended theorem: one concept, table `{L: ["x"]}`. -/
theorem C4_amended_witness :
    (create_gabmap_txt_bytes ["A"] [("L", ["x"])]).2 = [("L", ["x"])] :=
  C4_amended ["A"] [("L", ["x"])] (by decide)

/-! ## C6: locality-name clean-up on write -/

/-- **C6, amended.** The Gabmap writer strips bracket/department markers
only when the name carries both `[` and `]`: a name lacking one of the two
bracket characters — in particular a plain `"Name, Department"` — is
written unchanged at the head of its TXT line, while a name with a
bracketed part (with or without a department suffix) is cut back to the
bare name, as in the concrete `"Villa, Cundinamarca[4.5,-74.1]" → "Villa"`
case. -/
theorem C6_amended (c : List String) (n : String) (vs : List String)
    (hn : strHas '[' n = false ∨ strHas ']' n = false) :
    (create_gabmap_txt_bytes c [(n, vs)]).1 =
      joinSep "\t" c ++ "\r\n" ++
        (n ++ "\t" ++ joinSep "\t" (growTo c.length vs) ++ "\r\n") ∧
    (create_gabmap_txt_bytes ["A"]
      [("Villa, Cundinamarca[4.5,-74.1]", ["x"])]).1 = "A\r\nVilla\tx\r\n" := by
  constructor
  · have hclean : cleanLocalityName n = n := by
      unfold cleanLocalityName
      rw [if_neg]
      intro hc
      rcases hn with h1 | h1
      · rw [h1] at hc; exact absurd hc.1 (by simp)
      · rw [h1] at hc; exact absurd hc.2 (by simp)
    show (gabmapLocalityStep c (joinSep "\t" c ++ "\r\n", [(n, vs)]) n).1 = _
    unfold gabmapLocalityStep
    simp only [show alistGet n [(n, vs)] = some vs from by simp [alistGet],
      Option.getD_some, hclean]
  · decide

/-- Witness for C6's amended theorem at the bracket-free name
`"Villa, Cundinamarca"`. -/
theorem C6_amended_witness :
    (create_gabmap_txt_bytes ["A"] [("Villa, Cundinamarca", ["x"])]).1 =
      joinSep "\t" ["A"] ++ "\r\n" ++
        ("Villa, Cundinamarca" ++ "\t" ++
          joinSep "\t" (growTo (["A"] : List String).length ["x"]) ++ "\r\n") ∧
    (create_gabmap_txt_bytes ["A"]
      [("Villa, Cundinamarca[4.5,-74.1]", ["x"])]).1 = "A\r\nVilla\tx\r\n" :=
  C6_amended ["A"] "Villa, Cundinamarca" ["x"] (Or.inl (by decide))

/-! ## C3: variant-list lengths -/

lemma adjustVariants_length (c vs : List String) :
    (adjustVariants c vs).length = c.length := by
  unfold adjustVariants
  by_cases h : c.length < vs.length
  · rw [if_pos h]
    simp
    omega
  · rw [if_neg h]
    simp
    omega

lemma parseDialecLines_lengths (c : List String) :
    ∀ (lines : List String) (d0 : List (String × List String)),
      (∀ p ∈ d0, (p.2).length = c.length) →
      ∀ p ∈ parseDialecLines c lines d0, (p.2).length = c.length := by
  intro lines
  induction lines with
  | nil => intro d0 h0 p hp; exact h0 p hp
  | cons line rest ih =>
    intro d0 h0 p hp
    rw [show parseDialecLines c (line :: rest) d0 =
        (if 2 ≤ (pySplitChar '\t' (pyStrip line)).length then
          parseDialecLines c rest
            (alistUpsert (pyStrip ((pySplitChar '\t' (pyStrip line)).headD ""))
              (adjustVariants c ((pySplitChar '\t' (pyStrip line)).drop 1)) d0)
        else parseDialecLines c rest d0) from rfl] at hp
    by_cases hlen : 2 ≤ (pySplitChar '\t' (pyStrip line)).length
    · rw [if_pos hlen] at hp
      refine ih _ ?_ p hp
      intro q hq
      rcases mem_alistUpsert hq with h' | h'
      · exact h0 q h'
      · rw [h']
        exact adjustVariants_length c _
    · rw [if_neg hlen] at hp
      exact ih d0 h0 p hp

lemma parseDialecStr_lengths (s : String) :
    ∀ p ∈ (parseDialecStr s).2, (p.2).length = (parseDialecStr s).1.length := by
  intro p hp
  unfold parseDialecStr at *
  exact parseDialecLines_lengths _ _ [] (by simp) p hp

lemma diatechAssign_lengths (names conceptos : List String)
    (d : List (String × List String)) (cell : Nat × String)
    (h : ∀ p ∈ d, (p.2).length ≤ conceptos.length) :
    ∀ p ∈ diatechAssign names conceptos d cell,
      (p.2).length ≤ conceptos.length := by
  intro p hp
  unfold diatechAssign at hp
  by_cases hi : cell.1 < names.length
  · rw [if_pos hi] at hp
    simp only at hp
    set n := names.getD cell.1 "" with hn
    set d1 := if (alistGet n d).isSome then d else d ++ [(n, [])] with hd1
    have hd1inv : ∀ q ∈ d1, (q.2).length ≤ conceptos.length := by
      intro q hq
      rw [hd1] at hq
      by_cases hg : (alistGet n d).isSome
      · rw [if_pos hg] at hq; exact h q hq
      · rw [if_neg hg] at hq
        rcases List.mem_append.mp hq with h' | h'
        · exact h q h'
        · rw [List.mem_singleton.mp h']
          simp
    have hvs : ((alistGet n d1).getD []).length ≤ conceptos.length := by
      cases hg : alistGet n d1 with
      | none => simp
      | some vs =>
        rw [Option.getD_some]
        exact hd1inv (n, vs) (alistGet_some_mem hg)
    rcases mem_alistSet hp with h' | h'
    · exact hd1inv p h'
    · rw [h', List.length_set, growTo_length hvs]
  · rw [if_neg hi] at hp
    exact h p hp

lemma diatechRowFold_lengths (names conceptos : List String) :
    ∀ (cells : List (Nat × String)) (d : List (String × List String)),
      (∀ p ∈ d, (p.2).length ≤ conceptos.length) →
      ∀ p ∈ cells.foldl (diatechAssign names conceptos) d,
        (p.2).length ≤ conceptos.length := by
  intro cells
  induction cells with
  | nil => intro d h p hp; exact h p hp
  | cons cell rest ih =>
    intro d h p hp
    rw [List.foldl_cons] at hp
    exact ih _ (fun q hq => diatechAssign_lengths names conceptos d cell h q hq)
      p hp

lemma readDiatechRow_lengths (names : List String)
    (st : List String × List (String × List String)) (line : String)
    (st' : List String × List (String × List String))
    (hrow : readDiatechRow names st line = some st')
    (hinv : ∀ p ∈ st.2, (p.2).length ≤ st.1.length) :
    ∀ p ∈ st'.2, (p.2).length ≤ st'.1.length := by
  unfold readDiatechRow at hrow
  split at hrow
  · exact absurd hrow (by simp)
  · rw [← Option.some.inj hrow]
    exact hinv
  · rename_i r0 restCols heq
    have hrow' : (if pyStrip (pyStripChar '"' (pyStrip r0)) = "" then some st
        else some (st.1 ++ [pyStrip (pyStripChar '"' (pyStrip r0))],
          restCols.enum.foldl
            (diatechAssign names (st.1 ++ [pyStrip (pyStripChar '"' (pyStrip r0))]))
            st.2)) = some st' := hrow
    by_cases hcon : pyStrip (pyStripChar '"' (pyStrip r0)) = ""
    · rw [if_pos hcon] at hrow'
      rw [← Option.some.inj hrow']
      exact hinv
    · rw [if_neg hcon] at hrow'
      rw [← Option.some.inj hrow']
      intro p hp
      refine diatechRowFold_lengths names _ _ st.2 ?_ p hp
      intro q hq
      have := hinv q hq
      simp only [List.length_append, List.length_singleton]
      omega

lemma diatechRows_lengths (names : List String) :
    ∀ (lines : List String)
      (st st' : List String × List (String × List String)),
      lines.foldlM (readDiatechRow names) st = some st' →
      (∀ p ∈ st.2, (p.2).length ≤ st.1.length) →
      ∀ p ∈ st'.2, (p.2).length ≤ st'.1.length := by
  intro lines
  induction lines with
  | nil =>
    intro st st' h hinv
    rw [← Option.some.inj h]
    exact hinv
  | cons line rest ih =>
    intro st st' h hinv
    rw [List.foldlM_cons] at h
    cases hrow : readDiatechRow names st line with
    | none => rw [hrow] at h; exact absurd h (by simp)
    | some st1 =>
      rw [hrow] at h
      have h' : rest.foldlM (readDiatechRow names) st1 = some st' := h
      exact ih st1 st' h' (readDiatechRow_lengths names st line st1 hrow hinv)

/-- **C3, amended.** Every entry of the table built by
`read_dialec_txt_from_bytes` has a variant sequence of length exactly
`len(ConceptList)` (short rows right-padded, long rows truncated); for
`read_diatech_csv_from_bytes` the length is only bounded by
`len(ConceptList)` — a locality column missing from a later, shorter data
row keeps its shorter list, as in the counterexample. -/
theorem C3_amended :
    (∀ (b : List Nat) (c : List String) (d : List (String × List String)),
      read_dialec_txt_from_bytes b = (c, d) →
      ∀ p ∈ d, (p.2).length = c.length) ∧
    (∀ (s : String) (c : List String) (d : List (String × List String))
      (l : List (String × GeoPt)),
      read_diatech_csv_from_str s = some (c, d, l) →
      ∀ p ∈ d, (p.2).length ≤ c.length) := by
  constructor
  · intro b c d h p hp
    unfold read_dialec_txt_from_bytes at h
    cases hd : firstDecode b with
    | none =>
      rw [hd] at h
      have h' : parseDialecStr (lossyUtf8Decode b) = (c, d) := h
      have h1 := parseDialecStr_lengths (lossyUtf8Decode b) p
        (by rw [h']; exact hp)
      rw [h'] at h1
      exact h1
    | some s =>
      rw [hd] at h
      have h' : parseDialecStr s = (c, d) := h
      have h1 := parseDialecStr_lengths s p (by rw [h']; exact hp)
      rw [h'] at h1
      exact h1
  · intro s c d l h p hp
    unfold read_diatech_csv_from_str at h
    replace h : (match pySplitlines s with
      | [] => some ([], [], [])
      | l0 :: rest =>
        match csvNextRow l0 with
        | none => none
        | some header =>
          (header.drop 1).foldlM readDiatechHeaderCol ([], []) >>= fun hdr =>
            (rest.foldlM (readDiatechRow hdr.1) ([], [])).map fun cd =>
              (cd.1, cd.2, hdr.2)) = some (c, d, l) := h
    split at h
    · rcases Option.some.inj h with h'
      have hd : d = [] := congrArg (fun t => t.2.1) h'.symm
      rw [hd] at hp
      exact absurd hp (List.not_mem_nil p)
    · rename_i l0 rest hlines
      split at h
      · exact absurd h (by simp)
      · rename_i header hheader
        cases hhdr : (header.drop 1).foldlM readDiatechHeaderCol ([], []) with
        | none => rw [hhdr] at h; exact absurd h (by simp)
        | some hdr =>
          rw [hhdr] at h
          replace h : (rest.foldlM (readDiatechRow hdr.1) ([], [])).map
              (fun cd => (cd.1, cd.2, hdr.2)) = some (c, d, l) := h
          cases hrows : rest.foldlM (readDiatechRow hdr.1) ([], []) with
          | none => rw [hrows] at h; exact absurd h (by simp)
          | some cd =>
            rw [hrows] at h
            replace h : some ((cd.1, cd.2, hdr.2) :
              List String × List (String × List String) × List (String × GeoPt)) =
              some (c, d, l) := h
            have hc : c = cd.1 := (congrArg (fun t => t.1) (Option.some.inj h)).symm
            have hdd : d = cd.2 :=
              (congrArg (fun t => t.2.1) (Option.some.inj h)).symm
            rw [hdd] at hp
            rw [hc]
            exact diatechRows_lengths hdr.1 rest ([], []) cd hrows
              (by intro q hq; exact absurd hq (List.not_mem_nil q)) p hp

/-! ## Character and string facts for the round trip -/

lemma takeWhile_all_append {p : Char → Bool} :
    ∀ {a : List Char} {x : Char} {r : List Char}, (∀ c ∈ a, p c = true) →
      p x = false →
      (a ++ x :: r).takeWhile p = a ∧ (a ++ x :: r).dropWhile p = x :: r := by
  intro a
  induction a with
  | nil =>
    intro x r _ hx
    constructor
    · show List.takeWhile p (x :: r) = []
      simp [List.takeWhile_cons, hx]
    · show List.dropWhile p (x :: r) = x :: r
      simp [List.dropWhile_cons, hx]
  | cons y a' ih =>
    intro x r ha hx
    have hy : p y = true := ha y (List.mem_cons_self _ _)
    have ih' := @ih x r (fun c hc => ha c (List.mem_cons_of_mem _ hc)) hx
    constructor
    · show List.takeWhile p (y :: (a' ++ x :: r)) = y :: a'
      rw [List.takeWhile_cons, hy]
      simp [ih'.1]
    · show List.dropWhile p (y :: (a' ++ x :: r)) = x :: r
      rw [List.dropWhile_cons, hy]
      simp only [if_true]
      exact ih'.2

lemma dropWhile_all {p : Char → Bool} :
    ∀ {l : List Char}, (∀ c ∈ l, p c = false) → l.dropWhile p = l := by
  intro l
  induction l with
  | nil => intro _; rfl
  | cons x r _ =>
    intro h
    rw [List.dropWhile_cons, h x (List.mem_cons_self _ _)]
    simp

lemma pyStrip_id {s : String} (h : ∀ c ∈ s.data, isPySpace c = false) :
    pyStrip s = s := by
  unfold pyStrip
  have hrev : ∀ c ∈ s.data.reverse, isPySpace c = false := by
    intro c hc
    exact h c (List.mem_reverse.mp hc)
  rw [dropWhile_all h, dropWhile_all hrev]
  simp

lemma pyStripChar_id {ch : Char} {s : String}
    (h : ∀ c ∈ s.data, c ≠ ch) : pyStripChar ch s = s := by
  unfold pyStripChar
  have h1 : ∀ c ∈ s.data, decide (c = ch) = false := by
    intro c hc
    simpa using h c hc
  have hrev : ∀ c ∈ s.data.reverse, decide (c = ch) = false := by
    intro c hc
    exact h1 c (List.mem_reverse.mp hc)
  rw [dropWhile_all h1, dropWhile_all hrev]
  simp

lemma pySplitCharAux_no_sep {sep : Char} :
    ∀ {cs cur : List Char}, (∀ c ∈ cs, c ≠ sep) →
      pySplitCharAux sep cur cs = [String.mk (cur ++ cs)] := by
  intro cs
  induction cs with
  | nil => intro cur _; simp [pySplitCharAux]
  | cons x r ih =>
    intro cur h
    have hx : x ≠ sep := h x (List.mem_cons_self _ _)
    show (if x = sep then _ else pySplitCharAux sep (cur ++ [x]) r) = _
    rw [if_neg hx, ih (fun c hc => h c (List.mem_cons_of_mem _ hc))]
    simp

lemma pySplitChar_no_sep {sep : Char} {s : String}
    (h : ∀ c ∈ s.data, c ≠ sep) : pySplitChar sep s = [s] := by
  unfold pySplitChar
  rw [pySplitCharAux_no_sep h]
  simp

lemma getD_append_length {α : Type} (xs : List α) (y : α) (ys : List α)
    (dflt : α) : (xs ++ y :: ys).getD xs.length dflt = y := by
  induction xs with
  | nil => rfl
  | cons x r ih => simpa using ih

lemma mem_insertSorted {x y : String} :
    ∀ {l : List String}, y ∈ insertSorted x l → y = x ∨ y ∈ l := by
  intro l
  induction l with
  | nil =>
    intro h
    rcases List.mem_singleton.mp h with rfl
    exact Or.inl rfl
  | cons z r ih =>
    intro h
    show y = x ∨ y ∈ z :: r
    unfold insertSorted at h
    by_cases hle : strLeB x z
    · rw [if_pos hle] at h
      rcases List.mem_cons.mp h with rfl | h'
      · exact Or.inl rfl
      · exact Or.inr h'
    · rw [if_neg hle] at h
      rcases List.mem_cons.mp h with rfl | h'
      · exact Or.inr (List.mem_cons_self _ _)
      · rcases ih h' with h'' | h''
        · exact Or.inl h''
        · exact Or.inr (List.mem_cons_of_mem _ h'')

lemma mem_sortStrings {y : String} :
    ∀ {l : List String}, y ∈ sortStrings l → y ∈ l := by
  intro l
  induction l with
  | nil => intro h; exact absurd h (List.not_mem_nil y)
  | cons x r ih =>
    intro h
    rcases mem_insertSorted h with rfl | h'
    · exact List.mem_cons_self _ _
    · exact List.mem_cons_of_mem _ (ih h')

lemma digitChar_toNat (n : Nat) : (digitChar n).toNat = 48 + n % 10 := by
  unfold digitChar
  have h : n % 10 < 10 := Nat.mod_lt _ (by omega)
  set m := n % 10 with hm
  interval_cases m <;> decide

lemma digitChar_isDigit (n : Nat) : (digitChar n).isDigit = true := by
  unfold digitChar
  have h : n % 10 < 10 := Nat.mod_lt _ (by omega)
  set m := n % 10 with hm
  interval_cases m <;> decide

lemma natDigitsAux_digits (fuel : Nat) :
    ∀ n, ∀ c ∈ natDigitsAux fuel n, c.isDigit = true := by
  induction fuel with
  | zero => intro n c hc; exact absurd hc (List.not_mem_nil c)
  | succ f ih =>
    intro n c hc
    unfold natDigitsAux at hc
    by_cases hn : n < 10
    · rw [if_pos hn] at hc
      rw [List.mem_singleton.mp hc]
      exact digitChar_isDigit n
    · rw [if_neg hn] at hc
      rcases List.mem_append.mp hc with h' | h'
      · exact ih (n / 10) c h'
      · rw [List.mem_singleton.mp h']
        exact digitChar_isDigit (n % 10)

lemma natDigits_digits (n : Nat) : ∀ c ∈ natDigits n, c.isDigit = true :=
  natDigitsAux_digits (n + 1) n

lemma natDigitsAux_toNat (fuel : Nat) :
    ∀ n, ∀ c ∈ natDigitsAux fuel n, 48 ≤ c.toNat ∧ c.toNat ≤ 57 := by
  induction fuel with
  | zero => intro n c hc; exact absurd hc (List.not_mem_nil c)
  | succ f ih =>
    intro n c hc
    unfold natDigitsAux at hc
    by_cases hn : n < 10
    · rw [if_pos hn] at hc
      rw [List.mem_singleton.mp hc, digitChar_toNat]
      omega
    · rw [if_neg hn] at hc
      rcases List.mem_append.mp hc with h' | h'
      · exact ih (n / 10) c h'
      · rw [List.mem_singleton.mp h', digitChar_toNat]
        omega

lemma natDigits_toNat (n : Nat) :
    ∀ c ∈ natDigits n, 48 ≤ c.toNat ∧ c.toNat ≤ 57 :=
  natDigitsAux_toNat (n + 1) n

lemma natDigitsAux_ne_nil (fuel n : Nat) (h : 0 < fuel) :
    natDigitsAux fuel n ≠ [] := by
  cases fuel with
  | zero => omega
  | succ f =>
    unfold natDigitsAux
    by_cases hn : n < 10
    · rw [if_pos hn]; simp
    · rw [if_neg hn]; simp

lemma natDigits_ne_nil (n : Nat) : natDigits n ≠ [] :=
  natDigitsAux_ne_nil (n + 1) n (by omega)

lemma isNumClassChar_toNat {c : Char} (h : isNumClassChar c = true) :
    c.toNat = 45 ∨ c.toNat = 46 ∨ (48 ≤ c.toNat ∧ c.toNat ≤ 57) := by
  simp only [isNumClassChar, Bool.or_eq_true, Bool.and_eq_true,
    decide_eq_true_eq] at h
  rcases h with (h' | h') | h'
  · exact Or.inr (Or.inr h')
  · rw [h']
    exact Or.inr (Or.inl rfl)
  · rw [h']
    exact Or.inl rfl

lemma numClass_not_space {c : Char} (h : isNumClassChar c = true) :
    isPySpace c = false := by
  rcases isNumClassChar_toNat h with h' | h' | h' <;>
    (simp only [isPySpace, Bool.or_eq_false_iff, Bool.and_eq_false_iff,
      decide_eq_false_iff_not]; omega)

lemma numClass_of_toNat {c : Char} (h : 48 ≤ c.toNat ∧ c.toNat ≤ 57) :
    isNumClassChar c = true := by
  simp only [isNumClassChar, Bool.or_eq_true, Bool.and_eq_true,
    decide_eq_true_eq]
  exact Or.inl (Or.inl h)

/-- Every character of a formatted float is in the `[0-9.-]` class. -/
lemma formatQData_chars (q : PyFloat) :
    ∀ c ∈ formatQData q, isNumClassChar c = true := by
  intro c hc
  unfold formatQData at hc
  rcases List.mem_append.mp hc with h1 | h1
  · rcases List.mem_append.mp h1 with h2 | h2
    · by_cases hneg : q.num < 0
      · rw [if_pos hneg] at h2
        rw [List.mem_singleton.mp h2]
        decide
      · rw [if_neg hneg] at h2
        exact absurd h2 (List.not_mem_nil c)
    · exact numClass_of_toNat (natDigits_toNat _ c h2)
  · rcases List.mem_cons.mp h1 with rfl | h2
    · decide
    · unfold formatQFrac at h2
      by_cases hk : leastPow10 q.den 0 q.den = 0
      · rw [if_pos hk] at h2
        rw [List.mem_singleton.mp h2]
        decide
      · rw [if_neg hk] at h2
        rcases List.mem_append.mp h2 with h3 | h3
        · rw [List.eq_of_mem_replicate h3]
          decide
        · exact numClass_of_toNat (natDigits_toNat _ c h3)

lemma formatQ_chars (q : PyFloat) :
    ∀ c ∈ (formatQ q).data, isNumClassChar c = true :=
  formatQData_chars q

lemma formatQData_ne_nil (q : PyFloat) : formatQData q ≠ [] := by
  unfold formatQData
  simp

lemma formatQ_ne_empty (q : PyFloat) : formatQ q ≠ "" := by
  unfold formatQ
  intro h
  exact absurd (congrArg String.data h) (formatQData_ne_nil q)

lemma takeWhile_all {p : Char → Bool} :
    ∀ {l : List Char}, (∀ c ∈ l, p c = true) →
      l.takeWhile p = l ∧ l.dropWhile p = [] := by
  intro l
  induction l with
  | nil => intro _; exact ⟨rfl, rfl⟩
  | cons x r ih =>
    intro h
    have hx : p x = true := h x (List.mem_cons_self _ _)
    have ih' := ih (fun c hc => h c (List.mem_cons_of_mem _ hc))
    constructor
    · rw [List.takeWhile_cons, hx]
      simp [ih'.1]
    · rw [List.dropWhile_cons, hx]
      simp [ih'.2]

lemma formatQFrac_digits (k fp : Nat) :
    ∀ c ∈ formatQFrac k fp, c.isDigit = true := by
  intro c hc
  unfold formatQFrac at hc
  by_cases hk : k = 0
  · rw [if_pos hk] at hc
    rw [List.mem_singleton.mp hc]
    decide
  · rw [if_neg hk] at hc
    rcases List.mem_append.mp hc with h' | h'
    · rw [List.eq_of_mem_replicate h']
      decide
    · exact natDigits_digits _ c h'

lemma isDigit_toNat {c : Char} (h : c.isDigit = true) :
    48 ≤ c.toNat ∧ c.toNat ≤ 57 := by
  simp only [Char.isDigit, Bool.and_eq_true, decide_eq_true_eq] at h
  exact ⟨h.1, h.2⟩

/-- A list of digits followed by `.` and more digits parses as a
mantissa. -/
lemma parseFloatMant_digits_dot (neg : Bool) (a b : List Char)
    (ha : ∀ c ∈ a, c.isDigit = true) (hb : ∀ c ∈ b, c.isDigit = true)
    (ha0 : a ≠ []) :
    ∃ v, parseFloatMant neg (a ++ '.' :: b) = some v := by
  obtain ⟨htw, hdw⟩ :=
    takeWhile_all_append (p := Char.isDigit) (x := '.') (r := b) ha (by decide)
  obtain ⟨htwb, hdwb⟩ := takeWhile_all (p := Char.isDigit) hb
  unfold parseFloatMant
  rw [htw, hdw,
    show parseFloatFrac ('.' :: b) =
      (b.takeWhile Char.isDigit, b.dropWhile Char.isDigit, true) from rfl,
    htwb, hdwb]
  rw [if_neg (by
    intro hcontra
    rw [List.isEmpty_iff] at hcontra
    exact ha0 hcontra.1)]
  exact ⟨_, rfl⟩

/-- A formatted float is always accepted by `float()`. -/
lemma pyFloat_formatQ_isSome (q : PyFloat) :
    ∃ v, pyFloat (formatQ q) = some v := by
  unfold pyFloat
  rw [pyStrip_id (by
    intro c hc
    exact numClass_not_space (formatQ_chars q c hc))]
  show ∃ v, parseFloatCore (formatQData q) = some v
  unfold formatQData
  by_cases hneg : q.num < 0
  · rw [if_pos hneg]
    rw [List.cons_append]
    show ∃ v, parseFloatMant true _ = some v
    exact parseFloatMant_digits_dot true _ _ (natDigits_digits _)
      (formatQFrac_digits _ _) (natDigits_ne_nil _)
  · rw [if_neg hneg, List.nil_append]
    have hhd : ∀ c ∈ natDigits (q.num.natAbs *
        10 ^ leastPow10 q.den 0 q.den / q.den /
        10 ^ leastPow10 q.den 0 q.den), c ≠ '-' ∧ c ≠ '+' := by
      intro c hc
      have := isDigit_toNat (natDigits_digits _ c hc)
      constructor <;> (intro h'; rw [h'] at this; simp at this)
    unfold parseFloatCore
    split
    · rename_i r heq
      cases hn : natDigits (q.num.natAbs * 10 ^ leastPow10 q.den 0 q.den /
          q.den / 10 ^ leastPow10 q.den 0 q.den) with
      | nil => exact absurd hn (natDigits_ne_nil _)
      | cons hd tl =>
        rw [hn, List.cons_append] at heq
        exact absurd (List.head_eq_of_cons_eq heq)
          (hhd hd (by rw [hn]; exact List.mem_cons_self _ _)).1
    · rename_i r heq
      cases hn : natDigits (q.num.natAbs * 10 ^ leastPow10 q.den 0 q.den /
          q.den / 10 ^ leastPow10 q.den 0 q.den) with
      | nil => exact absurd hn (natDigits_ne_nil _)
      | cons hd tl =>
        rw [hn, List.cons_append] at heq
        exact absurd (List.head_eq_of_cons_eq heq)
          (hhd hd (by rw [hn]; exact List.mem_cons_self _ _)).2
    · exact parseFloatMant_digits_dot false _ _ (natDigits_digits _)
        (formatQFrac_digits _ _) (natDigits_ne_nil _)

/-! ## CSV reading of writer output -/

lemma ne_empty_of_data_cons {s : String} {c : Char} {r : List Char}
    (h : s.data = c :: r) : s ≠ "" := by
  intro h0
  rw [h0] at h
  exact absurd h (by simp)

lemma csvRun_inQuoted_append (x : List Char) :
    ∀ (acc rest : List Char), (∀ c ∈ x, c ≠ '"') →
      csvRun .inQuoted acc (x ++ '"' :: rest) =
        csvRun .quoteSeen (acc ++ x) rest := by
  induction x with
  | nil =>
    intro acc rest _
    simp [csvRun]
  | cons c x' ih =>
    intro acc rest h
    have hc : c ≠ '"' := h c (List.mem_cons_self _ _)
    show csvRun .inQuoted acc (c :: (x' ++ '"' :: rest)) = _
    rw [show csvRun .inQuoted acc (c :: (x' ++ '"' :: rest)) =
        if c = '"' then csvRun .quoteSeen acc (x' ++ '"' :: rest)
        else csvRun .inQuoted (acc ++ [c]) (x' ++ '"' :: rest) from rfl]
    rw [if_neg hc, ih (acc ++ [c]) rest (fun d hd => h d (List.mem_cons_of_mem _ hd))]
    simp

/-- Parsing the `;`-join of quote-wrapped quote-free fields recovers the
fields. -/
lemma csvRun_fields :
    ∀ (fields : List String), fields ≠ [] →
      (∀ f ∈ fields, ∀ c ∈ f.data, c ≠ '"') →
      csvRun .start [] (joinSep ";" (fields.map qwrap)).data = fields := by
  intro fields
  induction fields with
  | nil => intro h _; exact absurd rfl h
  | cons x rest ih =>
    intro _ hq
    have hx : ∀ c ∈ x.data, c ≠ '"' := hq x (List.mem_cons_self _ _)
    cases rest with
    | nil =>
      show csvRun .start [] (qwrap x).data = [x]
      rw [qwrap_data]
      show csvRun .inQuoted [] (x.data ++ '"' :: []) = [x]
      rw [csvRun_inQuoted_append x.data [] [] hx]
      show [String.mk ([] ++ x.data)] = [x]
      simp
    | cons y ys =>
      have hdata : (joinSep ";" ((x :: y :: ys).map qwrap)).data =
          '"' :: (x.data ++ '"' :: ';' ::
            (joinSep ";" ((y :: ys).map qwrap)).data) := by
        show (qwrap x ++ ";" ++ joinSep ";" ((y :: ys).map qwrap)).data = _
        rw [data_append, data_append, qwrap_data]
        simp
      rw [hdata]
      show csvRun .inQuoted [] (x.data ++ '"' :: (';' ::
        (joinSep ";" ((y :: ys).map qwrap)).data)) = x :: y :: ys
      rw [csvRun_inQuoted_append x.data [] _ hx]
      show String.mk ([] ++ x.data) ::
        csvRun .start [] (joinSep ";" ((y :: ys).map qwrap)).data = x :: y :: ys
      rw [ih (by simp) (fun f hf => hq f (List.mem_cons_of_mem _ hf))]
      simp

/-- `csvNextRow` on a written row. -/
lemma csvNextRow_fields (fields : List String) (h0 : fields ≠ [])
    (hq : ∀ f ∈ fields, ∀ c ∈ f.data, c ≠ '"') :
    csvNextRow (joinSep ";" (fields.map qwrap)) = some fields := by
  have hne : joinSep ";" (fields.map qwrap) ≠ "" := by
    cases fields with
    | nil => exact absurd rfl h0
    | cons x rest =>
      cases rest with
      | nil =>
        refine ne_empty_of_data_cons (c := '"') (r := x.data ++ ['"']) ?_
        rw [show joinSep ";" ((x :: []).map qwrap) = qwrap x from rfl, qwrap_data]
        simp
      | cons y ys =>
        refine ne_empty_of_data_cons (c := '"')
          (r := x.data ++ '"' :: ';' :: (joinSep ";" ((y :: ys).map qwrap)).data) ?_
        show (qwrap x ++ ";" ++ joinSep ";" ((y :: ys).map qwrap)).data = _
        rw [data_append, data_append, qwrap_data]
        simp
  unfold csvNextRow
  rw [if_neg hne, csvRun_fields fields h0 hq]

/-! ## C10: header-only localities -/

/-- The names of the placemarks of a KML tree. -/
def placemarkNames (x : Xml) : List String :=
  (findallDesc "Placemark" x).filterMap
    (fun pm => (findChild "name" pm).bind Xml.textOf)

lemma xmlForestDesc_of (xs : List Xml) :
    xmlForestDesc (xmlForestOf xs) =
      xs.flatMap (fun x => x :: xmlDescendants x) := by
  induction xs with
  | nil => rfl
  | cons x r ih =>
    cases x with
    | elem t tx cs =>
      show Xml.elem t tx cs :: (xmlForestDesc cs ++ xmlForestDesc (xmlForestOf r)) = _
      rw [ih]
      simp [xmlDescendants]

lemma alistGet_isSome_of_mem_keys {α : Type} {n : String} :
    ∀ {l : List (String × α)}, n ∈ l.map Prod.fst → (alistGet n l).isSome := by
  intro l
  induction l with
  | nil => intro h; exact absurd h (by simp)
  | cons p r ih =>
    intro h
    show (if p.1 = n then some p.2 else alistGet n r).isSome
    by_cases hp : p.1 = n
    · rw [if_pos hp]; rfl
    · rw [if_neg hp]
      rcases List.mem_map.mp h with ⟨q, hq, hqn⟩
      rcases List.mem_cons.mp hq with rfl | hq'
      · exact absurd hqn hp
      · exact ih (List.mem_map.mpr ⟨q, hq', hqn⟩)

lemma not_mem_keys_of_alistGet_none {α : Type} {n : String}
    {l : List (String × α)} (h : alistGet n l = none) :
    n ∉ l.map Prod.fst := by
  intro hmem
  have := alistGet_isSome_of_mem_keys hmem
  rw [h] at this
  exact absurd this (by simp)

/-- Any tagged `Placemark` with a name among a Document's children shows
up in `placemarkNames`. -/
lemma mem_placemark_names_aux (pm : Xml) (others : List Xml) (nm : String)
    (hpm : pm ∈ others) (htag : pm.tagOf = "Placemark")
    (hname : (findChild "name" pm).bind Xml.textOf = some nm) :
    nm ∈ placemarkNames (xelem "kml" none [xelem "Document" none others]) := by
  unfold placemarkNames
  refine List.mem_filterMap.mpr ⟨pm, ?_, hname⟩
  refine List.mem_filter.mpr ⟨?_, by simp [htag]⟩
  show pm ∈ xmlForestDesc (xmlForestOf [xelem "Document" none others])
  rw [xmlForestDesc_of]
  refine List.mem_flatMap.mpr
    ⟨xelem "Document" none others, List.mem_singleton.mpr rfl, ?_⟩
  refine List.mem_cons_of_mem _ ?_
  show pm ∈ xmlForestDesc (xmlForestOf others)
  rw [xmlForestDesc_of]
  exact List.mem_flatMap.mpr ⟨pm, hpm, List.mem_cons_self _ _⟩

/-- Every locality of the table appears as a placemark of the produced
KML. -/
lemma mem_placemarkNames_create_kml {l : List (String × GeoPt)}
    {b : Option String} {n : String} {info : GeoPt} (h : (n, info) ∈ l) :
    n ∈ placemarkNames (create_kml_bytes l b) := by
  unfold create_kml_bytes
  refine mem_placemark_names_aux _ _ n
    (List.mem_append_left _ (List.mem_map_of_mem _ h)) ?_ ?_
  · cases hla : info.lat <;> cases hlo : info.lon <;>
      simp [hla, hlo, xelem, Xml.tagOf]
  · cases hla : info.lat <;> cases hlo : info.lon <;>
      simp [hla, hlo, xelem, xmlForestOf, findChild, Xml.childrenList,
        xmlForestToList, Xml.tagOf, Xml.textOf]

lemma alistSet_length {α : Type} (k : String) (v : α) :
    ∀ (l : List (String × α)), (alistSet k v l).length = l.length := by
  intro l
  induction l with
  | nil => rfl
  | cons p r ih =>
    show (if p.1 = k then (p.1, v) :: r else p :: alistSet k v r).length = _
    by_cases hp : p.1 = k
    · rw [if_pos hp]; rfl
    · rw [if_neg hp]
      simp [ih]

lemma create_gabmap_snd_length (c : List String)
    (d : List (String × List String)) :
    (create_gabmap_txt_bytes c d).2.length = d.length := by
  unfold create_gabmap_txt_bytes
  have main : ∀ (keys : List String) (acc : String × List (String × List String)),
      ((keys.foldl (gabmapLocalityStep c) acc).2).length = (acc.2).length := by
    intro keys
    induction keys with
    | nil => intro acc; rfl
    | cons n rest ih =>
      intro acc
      rw [List.foldl_cons, ih]
      show (alistSet n _ acc.2).length = _
      rw [alistSet_length]
  exact main _ _

/-- **C10.** A locality present in the Diatech header but never assigned a
variant by any data row (in particular, whenever the CSV is the header
line alone, every header locality) is absent from the locality table: the
output TXT is generated from that table alone (so the locality gets no
TXT line), the `localidades` statistic counts only the table's entries,
yet the locality is emitted as a placemark of the output KML, and it is
counted in `localidades_con_coordenadas` exactly when its header carried
coordinates. -/
theorem C10_header_only_localities (csv : String) (bnd : Option String)
    (c : List String) (d : List (String × List String))
    (l : List (String × GeoPt))
    (hread : read_diatech_csv_from_str csv = some (c, d, l))
    (txt : String) (kml : Xml) (st : DiatechStats)
    (hconv : convert_diatech_to_gabmap csv bnd = some (txt, kml, st)) :
    ((pySplitlines csv).length = 1 → d = []) ∧
    st.localidades = d.length ∧
    txt = (create_gabmap_txt_bytes c d).1 ∧
    st.localidades_con_coordenadas =
      (l.filter (fun p => p.2.lat.isSome && p.2.lon.isSome)).length ∧
    (∀ n info, (n, info) ∈ l → alistGet n d = none →
      n ∉ d.map Prod.fst ∧ n ∈ placemarkNames kml ∧
      ((info.lat.isSome && info.lon.isSome) = true →
        (n, info) ∈ l.filter (fun p => p.2.lat.isSome && p.2.lon.isSome))) := by
  unfold convert_diatech_to_gabmap at hconv
  rw [hread] at hconv
  replace hconv : some ((create_gabmap_txt_bytes c d).1,
      create_kml_bytes l bnd,
      (⟨c.length, (create_gabmap_txt_bytes c d).2.length,
        (l.filter (fun p => p.2.lat.isSome && p.2.lon.isSome)).length⟩ :
        DiatechStats)) = some (txt, kml, st) := hconv
  have hparts := Option.some.inj hconv
  have htxt : txt = (create_gabmap_txt_bytes c d).1 :=
    (congrArg (fun t => t.1) hparts).symm
  have hkml : kml = create_kml_bytes l bnd :=
    (congrArg (fun t => t.2.1) hparts).symm
  have hst : st = ⟨c.length, (create_gabmap_txt_bytes c d).2.length,
      (l.filter (fun p => p.2.lat.isSome && p.2.lon.isSome)).length⟩ :=
    (congrArg (fun t => t.2.2) hparts).symm
  refine ⟨?_, ?_, htxt, ?_, ?_⟩
  · intro hlen
    cases hlines : pySplitlines csv with
    | nil => rw [hlines] at hlen; exact absurd hlen (by simp)
    | cons l0 rest =>
      have hrest : rest = [] := by
        rw [hlines] at hlen
        simpa using hlen
      subst hrest
      unfold read_diatech_csv_from_str at hread
      rw [hlines] at hread
      replace hread : (match csvNextRow l0 with
        | none => none
        | some header =>
          (header.drop 1).foldlM readDiatechHeaderCol ([], []) >>= fun hdr =>
            (([] : List String).foldlM (readDiatechRow hdr.1) ([], [])).map
              fun cd => (cd.1, cd.2, hdr.2)) = some (c, d, l) := hread
      cases hnext : csvNextRow l0 with
      | none => rw [hnext] at hread; exact absurd hread (by simp)
      | some header =>
        rw [hnext] at hread
        replace hread : ((header.drop 1).foldlM readDiatechHeaderCol ([], []) >>=
            fun hdr => some (([], [], hdr.2) :
              List String × List (String × List String) ×
                List (String × GeoPt))) = some (c, d, l) := hread
        cases hhdr : (header.drop 1).foldlM readDiatechHeaderCol ([], []) with
        | none =>
          rw [hhdr] at hread
          exact absurd hread (by simp)
        | some hdr =>
          rw [hhdr] at hread
          replace hread : some (([], [], hdr.2) :
              List String × List (String × List String) × List (String × GeoPt)) =
              some (c, d, l) := hread
          exact (congrArg (fun t => t.2.1) (Option.some.inj hread)).symm
  · rw [hst]
    exact create_gabmap_snd_length c d
  · rw [hst]
  · intro n info hm hnone
    refine ⟨not_mem_keys_of_alistGet_none hnone, ?_, ?_⟩
    · rw [hkml]
      exact mem_placemarkNames_create_kml hm
    · intro hcoords
      exact List.mem_filter.mpr ⟨hm, hcoords⟩

/-- Witness for C10 at the header-only CSV `"";"Villa[4.5,-74.1]"`. -/
theorem C10_header_only_localities_witness :
    ((pySplitlines "\"\";\"Villa[4.5,-74.1]\"").length = 1 → ([] :
      List (String × List String)) = []) ∧
    DiatechStats.localidades ⟨0, 0, 1⟩ = ([] : List (String × List String)).length ∧
    "\r\n" = (create_gabmap_txt_bytes [] []).1 ∧
    DiatechStats.localidades_con_coordenadas ⟨0, 0, 1⟩ =
      (([("Villa", ⟨some ⟨9, 2⟩, some ⟨-741, 10⟩⟩)] :
        List (String × GeoPt)).filter
          (fun p => p.2.lat.isSome && p.2.lon.isSome)).length ∧
    (∀ n info,
      (n, info) ∈ ([("Villa", ⟨some ⟨9, 2⟩, some ⟨-741, 10⟩⟩)] :
        List (String × GeoPt)) →
      alistGet n ([] : List (String × List String)) = none →
      n ∉ ([] : List (String × List String)).map Prod.fst ∧
      n ∈ placemarkNames (create_kml_bytes
        [("Villa", ⟨some ⟨9, 2⟩, some ⟨-741, 10⟩⟩)] none) ∧
      ((info.lat.isSome && info.lon.isSome) = true →
        (n, info) ∈ ([("Villa", ⟨some ⟨9, 2⟩, some ⟨-741, 10⟩⟩)] :
          List (String × GeoPt)).filter
            (fun p => p.2.lat.isSome && p.2.lon.isSome))) :=
  C10_header_only_localities "\"\";\"Villa[4.5,-74.1]\"" none
    [] [] [("Villa", ⟨some ⟨9, 2⟩, some ⟨-741, 10⟩⟩)] (by decide)
    "\r\n"
    (create_kml_bytes [("Villa", ⟨some ⟨9, 2⟩, some ⟨-741, 10⟩⟩)] none)
    ⟨0, 0, 1⟩ (by rfl)

/-- Witness for C3's amended theorem at the concrete inputs of the
counterexamples. -/
theorem C3_amended_witness :
    (∀ p ∈ [("L", [" x"])], ((p.2 : List String)).length =
      (["A"] : List String).length) ∧
    (∀ p ∈ [("A", ["a", "x"]), ("B", ["b"])],
      ((p.2 : List String)).length ≤ (["c1", "c2"] : List String).length) :=
  ⟨C3_amended.1 c1TxtBytes ["A"] [("L", [" x"])] (by decide),
   C3_amended.2 c3Csv ["c1", "c2"] [("A", ["a", "x"]), ("B", ["b"])]
     [("A", ⟨some ⟨1, 1⟩, some ⟨2, 1⟩⟩), ("B", ⟨some ⟨3, 1⟩, some ⟨4, 1⟩⟩)]
     (by decide)⟩

/-! ## C1: the Gabmap → Diatech → Gabmap round trip

Support lemmas: list and association-list bookkeeping, behaviour of the
header regex on generated header fields, and the two fold invariants of
`read_diatech_csv_from_bytes` and `create_gabmap_txt_bytes`. -/

lemma joinSep_cons (sep x : String) {xs : List String} (h : xs ≠ []) :
    joinSep sep (x :: xs) = x ++ sep ++ joinSep sep xs := by
  cases xs with
  | nil => exact absurd rfl h
  | cons y ys => rfl

lemma joinSep_chars (sep : String) :
    ∀ (l : List String) (ch : Char), ch ∈ (joinSep sep l).data →
      (∃ x ∈ l, ch ∈ x.data) ∨ ch ∈ sep.data := by
  intro l
  induction l with
  | nil => intro ch h; exact absurd h (List.not_mem_nil ch)
  | cons x xs ih =>
    intro ch h
    cases xs with
    | nil => exact Or.inl ⟨x, List.mem_cons_self _ _, h⟩
    | cons y ys =>
      rw [joinSep_cons sep x (by simp), data_append, data_append] at h
      rcases List.mem_append.mp h with h' | h'
      · rcases List.mem_append.mp h' with h'' | h''
        · exact Or.inl ⟨x, List.mem_cons_self _ _, h''⟩
        · exact Or.inr h''
      · rcases ih ch h' with ⟨z, hz, hzc⟩ | h''
        · exact Or.inl ⟨z, List.mem_cons_of_mem _ hz, hzc⟩
        · exact Or.inr h''

lemma set_append_length {α : Type} (xs : List α) (y v : α) (ys : List α) :
    (xs ++ y :: ys).set xs.length v = xs ++ v :: ys := by
  induction xs with
  | nil => rfl
  | cons x r ih =>
    show x :: (r ++ y :: ys).set r.length v = x :: (r ++ v :: ys)
    rw [ih]

lemma strHas_false_of_not_mem {c : Char} {s : String} (h : c ∉ s.data) :
    strHas c s = false := by
  cases hb : strHas c s with
  | false => rfl
  | true => exact absurd (List.mem_of_elem_eq_true hb) h

lemma map_fst_pairmap {α β : Type} (f : String × α → β) :
    ∀ (l : List (String × α)),
      (l.map (fun p => (p.1, f p))).map Prod.fst = l.map Prod.fst := by
  intro l
  induction l with
  | nil => rfl
  | cons p r ih => simp only [List.map_cons, ih]

lemma alistGet_eq_none_of_not_mem {α : Type} {n : String}
    {l : List (String × α)} (h : n ∉ l.map Prod.fst) : alistGet n l = none := by
  cases hg : alistGet n l with
  | none => rfl
  | some v =>
    exact absurd (List.mem_map_of_mem Prod.fst (alistGet_some_mem hg)) h

lemma alistGet_append_right {α : Type} {n : String}
    {l1 : List (String × α)} (l2 : List (String × α))
    (h : n ∉ l1.map Prod.fst) : alistGet n (l1 ++ l2) = alistGet n l2 := by
  induction l1 with
  | nil => rfl
  | cons p r ih =>
    have hp : p.1 ≠ n := by
      intro hc
      exact h (by rw [List.map_cons, hc]; exact List.mem_cons_self _ _)
    show (if p.1 = n then some p.2 else alistGet n (r ++ l2)) = _
    rw [if_neg hp]
    exact ih (fun hc => h (List.mem_cons_of_mem _ hc))

lemma alistSet_append_right {α : Type} {n : String} (v : α)
    {l1 : List (String × α)} (l2 : List (String × α))
    (h : n ∉ l1.map Prod.fst) :
    alistSet n v (l1 ++ l2) = l1 ++ alistSet n v l2 := by
  induction l1 with
  | nil => rfl
  | cons p r ih =>
    have hp : p.1 ≠ n := by
      intro hc
      exact h (by rw [List.map_cons, hc]; exact List.mem_cons_self _ _)
    show (if p.1 = n then (p.1, v) :: (r ++ l2) else
      p :: alistSet n v (r ++ l2)) = p :: (r ++ alistSet n v l2)
    rw [if_neg hp, ih (fun hc => h (List.mem_cons_of_mem _ hc))]

lemma alistGet_of_mem_nodup {α : Type} :
    ∀ {l : List (String × α)}, (l.map Prod.fst).Nodup →
      ∀ {p : String × α}, p ∈ l → alistGet p.1 l = some p.2 := by
  intro l
  induction l with
  | nil => intro _ p hp; exact absurd hp (List.not_mem_nil p)
  | cons q r ih =>
    intro hnd p hp
    rw [List.map_cons, List.nodup_cons] at hnd
    show (if q.1 = p.1 then some q.2 else alistGet p.1 r) = some p.2
    rcases List.mem_cons.mp hp with rfl | hp'
    · rw [if_pos rfl]
    · have hq : q.1 ≠ p.1 := by
        intro hc
        exact hnd.1 (hc ▸ List.mem_map_of_mem Prod.fst hp')
      rw [if_neg hq]
      exact ih hnd.2 hp'

/-- Entries after an `alistSet`, keeping key and value together. -/
lemma mem_alistSet_pair {α : Type} {k : String} {v : α} :
    ∀ {l : List (String × α)} {p : String × α}, p ∈ alistSet k v l →
      p ∈ l ∨ p = (k, v) := by
  intro l
  induction l with
  | nil => intro p h; exact absurd h (List.not_mem_nil p)
  | cons q r ih =>
    intro p h
    rw [show alistSet k v (q :: r) =
        if q.1 = k then (q.1, v) :: r else q :: alistSet k v r from rfl] at h
    by_cases hk : q.1 = k
    · rw [if_pos hk] at h
      rcases List.mem_cons.mp h with rfl | h'
      · exact Or.inr (by rw [hk])
      · exact Or.inl (List.mem_cons_of_mem q h')
    · rw [if_neg hk] at h
      rcases List.mem_cons.mp h with rfl | h'
      · exact Or.inl (List.mem_cons_self _ _)
      · rcases ih h' with h'' | h''
        · exact Or.inl (List.mem_cons_of_mem _ h'')
        · exact Or.inr h''

/-- Entries after an `alistUpsert`, keeping key and value together. -/
lemma mem_alistUpsert_pair {α : Type} {k : String} {v : α}
    {l : List (String × α)} {p : String × α} (h : p ∈ alistUpsert k v l) :
    p ∈ l ∨ p = (k, v) := by
  unfold alistUpsert at h
  by_cases hg : (alistGet k l).isSome
  · rw [if_pos hg] at h
    exact mem_alistSet_pair h
  · rw [if_neg hg] at h
    rcases List.mem_append.mp h with h' | h'
    · exact Or.inl h'
    · exact Or.inr (List.mem_singleton.mp h')

lemma alistSet_keys {α : Type} (k : String) (v : α) :
    ∀ (l : List (String × α)),
      (alistSet k v l).map Prod.fst = l.map Prod.fst := by
  intro l
  induction l with
  | nil => rfl
  | cons q r ih =>
    show (if q.1 = k then (q.1, v) :: r else q :: alistSet k v r).map Prod.fst = _
    by_cases hk : q.1 = k
    · rw [if_pos hk]
      simp
    · rw [if_neg hk, List.map_cons, List.map_cons, ih]

lemma alistUpsert_keys_nodup {α : Type} {k : String} {v : α}
    {l : List (String × α)} (h : (l.map Prod.fst).Nodup) :
    ((alistUpsert k v l).map Prod.fst).Nodup := by
  unfold alistUpsert
  by_cases hg : (alistGet k l).isSome
  · rw [if_pos hg, alistSet_keys]
    exact h
  · rw [if_neg hg, List.map_append]
    rw [List.nodup_append]
    refine ⟨h, by simp, ?_⟩
    intro a ha hb
    have hak : a = k := List.mem_singleton.mp (by simpa using hb)
    have hnone : alistGet k l = none := by
      cases hgg : alistGet k l with
      | none => rfl
      | some w => rw [hgg] at hg; exact absurd rfl hg
    rw [hak] at ha
    exact not_mem_keys_of_alistGet_none hnone ha

/-- The locality table built by `read_dialec_txt_from_bytes` has distinct
keys (it is a Python dict). -/
lemma parseDialecLines_nodup (c : List String) :
    ∀ (lines : List String) (d0 : List (String × List String)),
      (d0.map Prod.fst).Nodup →
      ((parseDialecLines c lines d0).map Prod.fst).Nodup := by
  intro lines
  induction lines with
  | nil => intro d0 h0; exact h0
  | cons line rest ih =>
    intro d0 h0
    show ((if 2 ≤ (pySplitChar '\t' (pyStrip line)).length then
        parseDialecLines c rest
          (alistUpsert (pyStrip ((pySplitChar '\t' (pyStrip line)).headD ""))
            (adjustVariants c ((pySplitChar '\t' (pyStrip line)).drop 1)) d0)
      else parseDialecLines c rest d0).map Prod.fst).Nodup
    by_cases hlen : 2 ≤ (pySplitChar '\t' (pyStrip line)).length
    · rw [if_pos hlen]
      exact ih _ (alistUpsert_keys_nodup h0)
    · rw [if_neg hlen]
      exact ih d0 h0

lemma read_dialec_nodup (b : List Nat) :
    (((read_dialec_txt_from_bytes b).2).map Prod.fst).Nodup := by
  unfold read_dialec_txt_from_bytes
  cases firstDecode b with
  | none =>
    show (((parseDialecStr _).2).map Prod.fst).Nodup
    exact parseDialecLines_nodup _ _ [] (by simp)
  | some s =>
    show (((parseDialecStr s).2).map Prod.fst).Nodup
    exact parseDialecLines_nodup _ _ [] (by simp)

lemma data_ne_nil_of_ne_empty {s : String} (h : s ≠ "") : s.data ≠ [] := by
  intro hd
  apply h
  have : s = String.mk s.data := rfl
  rw [hd] at this
  exact this

/-- The lazy scan walks over a bracket-free prefix accumulating it. -/
lemma regexScan_skip (pre : List Char) :
    ∀ (acc rest : List Char), (∀ ch ∈ pre, ch ≠ '[') →
      regexScan acc (pre ++ rest) = regexScan (acc ++ pre) rest := by
  induction pre with
  | nil => intro acc rest _; simp
  | cons c pre' ih =>
    intro acc rest h
    have hc : c ≠ '[' := h c (List.mem_cons_self _ _)
    show (if c = '[' ∧ ¬ acc.isEmpty then
        match tailCoordMatch (pre' ++ rest) with
        | some (a, b) => some (String.mk acc, a, b)
        | none => regexScan (acc ++ [c]) (pre' ++ rest)
      else regexScan (acc ++ [c]) (pre' ++ rest)) = _
    rw [if_neg (fun hcon => hc hcon.1),
      ih (acc ++ [c]) rest (fun ch hch => h ch (List.mem_cons_of_mem _ hch))]
    simp

lemma regexScan_no_bracket {cs : List Char} (acc : List Char)
    (h : ∀ ch ∈ cs, ch ≠ '[') : regexScan acc cs = none := by
  have := regexScan_skip cs acc [] h
  rw [List.append_nil] at this
  rw [this]
  rfl

/-- A column without an opening bracket never matches the header regex. -/
lemma regexHeaderMatch_none {s : String} (h : ∀ ch ∈ s.data, ch ≠ '[') :
    regexHeaderMatch s = none := by
  unfold regexHeaderMatch
  split
  · rename_i rest heq
    rw [regexScan_no_bracket [] (fun ch hch =>
      h ch (by rw [heq]; exact List.mem_cons_of_mem _ hch))]
    exact regexScan_no_bracket [] h
  · exact regexScan_no_bracket [] h

/-- The tail matcher accepts `lat,lon]` built from two formatted floats. -/
lemma tailCoordMatch_format (la lo : PyFloat) :
    tailCoordMatch ((formatQ la).data ++ ',' :: ((formatQ lo).data ++ [']'])) =
      some (formatQ la, formatQ lo) := by
  obtain ⟨hta, hda⟩ := takeWhile_all_append (p := isNumClassChar)
    (x := ',') (r := formatQData lo ++ [']'])
    (formatQData_chars la) (by decide)
  obtain ⟨htb, hdb⟩ := takeWhile_all_append (p := isNumClassChar)
    (x := ']') (r := ([] : List Char))
    (formatQData_chars lo) (by decide)
  have hnospace : (formatQData lo ++ [']']).dropWhile isPySpace =
      formatQData lo ++ [']'] := by
    refine dropWhile_all ?_
    intro ch hch
    rcases List.mem_append.mp hch with h' | h'
    · exact numClass_not_space (formatQData_chars lo ch h')
    · rw [List.mem_singleton.mp h']
      decide
  show (if (((formatQData la ++ ',' ::
      (formatQData lo ++ [']'])).takeWhile isNumClassChar).isEmpty = true)
      then none
      else
        match ((formatQData la ++ ',' ::
            (formatQData lo ++ [']'])).dropWhile isNumClassChar).dropWhile
            isPySpace with
        | ',' :: r3 =>
          let r4 := r3.dropWhile isPySpace
          let b := r4.takeWhile isNumClassChar
          let r5 := r4.dropWhile isNumClassChar
          if b.isEmpty = true then none
          else
            match r5 with
            | [']'] => some (String.mk (((formatQData la ++ ',' ::
                (formatQData lo ++ [']'])).takeWhile isNumClassChar)),
                String.mk b)
            | [']', '"'] => some (String.mk (((formatQData la ++ ',' ::
                (formatQData lo ++ [']'])).takeWhile isNumClassChar)),
                String.mk b)
            | _ => none
        | _ => none) = some (formatQ la, formatQ lo)
  rw [hta, hda]
  rw [if_neg (by simpa using formatQData_ne_nil la)]
  rw [List.dropWhile_cons, if_neg (by decide)]
  split
  · rename_i r3 heq
    injection heq with h1 h2
    subst h2
    show (if (((formatQData lo ++ [']']).dropWhile isPySpace).takeWhile
        isNumClassChar).isEmpty = true then none
      else
        match ((formatQData lo ++ [']']).dropWhile isPySpace).dropWhile
            isNumClassChar with
        | [']'] => some (String.mk (formatQData la), String.mk
            (((formatQData lo ++ [']']).dropWhile isPySpace).takeWhile
              isNumClassChar))
        | [']', '"'] => some (String.mk (formatQData la), String.mk
            (((formatQData lo ++ [']']).dropWhile isPySpace).takeWhile
              isNumClassChar))
        | _ => none) = some (formatQ la, formatQ lo)
    rw [hnospace, htb, hdb]
    rw [if_neg (by simpa using formatQData_ne_nil lo)]
    rfl
  · rename_i hcon
    exact absurd rfl (hcon (formatQData lo ++ [']']))

/-- The header regex on a generated coordinate header: the bracket-free
name is group 1, the two formatted floats are groups 2 and 3. -/
lemma regexHeaderMatch_format {n : String} (hne : n ≠ "")
    (hq : ∀ ch ∈ n.data, ch ≠ '"') (hbr : ∀ ch ∈ n.data, ch ≠ '[')
    (la lo : PyFloat) :
    regexHeaderMatch (n ++ "[" ++ formatQ la ++ "," ++ formatQ lo ++ "]") =
      some (n, formatQ la, formatQ lo) := by
  have hdata : (n ++ "[" ++ formatQ la ++ "," ++ formatQ lo ++ "]").data =
      n.data ++ '[' :: ((formatQ la).data ++ ',' ::
        ((formatQ lo).data ++ [']'])) := by
    simp only [data_append,
      show ("[" : String).data = ['['] from rfl,
      show ("," : String).data = [','] from rfl,
      show ("]" : String).data = [']'] from rfl, List.append_assoc,
      List.singleton_append, List.cons_append, List.nil_append]
  have hscan : regexScan []
      (n.data ++ '[' :: ((formatQ la).data ++ ',' ::
        ((formatQ lo).data ++ [']']))) = some (n, formatQ la, formatQ lo) := by
    rw [regexScan_skip n.data [] _ hbr, List.nil_append]
    show (if ('[' : Char) = '[' ∧ ¬ n.data.isEmpty then
        match tailCoordMatch ((formatQ la).data ++ ',' ::
            ((formatQ lo).data ++ [']'])) with
        | some (a, b) => some (String.mk n.data, a, b)
        | none => regexScan (n.data ++ ['[']) ((formatQ la).data ++ ',' ::
            ((formatQ lo).data ++ [']']))
      else regexScan (n.data ++ ['[']) ((formatQ la).data ++ ',' ::
          ((formatQ lo).data ++ [']']))) = _
    rw [if_pos ⟨rfl, by simpa using data_ne_nil_of_ne_empty hne⟩,
      tailCoordMatch_format la lo]
  unfold regexHeaderMatch
  split
  · rename_i rest heq
    rw [hdata] at heq
    cases hn : n.data with
    | nil => exact absurd hn (data_ne_nil_of_ne_empty hne)
    | cons c0 ctl =>
      rw [hn, List.cons_append] at heq
      have : '"' = c0 := List.head_eq_of_cons_eq heq.symm
      exact absurd this.symm (hq c0 (by rw [hn]; exact List.mem_cons_self _ _))
  · rw [hdata]
    exact hscan

/-- The normalised-name → (original name, info) map that
`create_diatech_csv_bytes` builds from the KML localities. -/
def normMapOf (k : List (String × KmlInfo)) :
    List (String × (String × KmlInfo)) :=
  k.foldl (fun m p => alistUpsert (normalize_name p.1) (p.1, p.2) m) []

/-- The unquoted content of a generated header column, with the matched
original KML name already replaced by the table name (sound when the
two agree literally). -/
def diatechHeaderContent (k : List (String × KmlInfo)) (n : String) : String :=
  match alistGet (normalize_name n) (normMapOf k) with
  | some oi => n ++ "[" ++ formatQ oi.2.lat ++ "," ++ formatQ oi.2.lon ++ "]"
  | none => n

/-- Every entry of the normalised-name map keys a KML locality by its
normalised name. -/
lemma normMap_entry (k : List (String × KmlInfo)) :
    ∀ e ∈ normMapOf k, e.1 = normalize_name e.2.1 ∧ e.2 ∈ k := by
  suffices h : ∀ (kl : List (String × KmlInfo))
      (m0 : List (String × (String × KmlInfo))),
      (∀ p ∈ kl, p ∈ k) →
      (∀ e ∈ m0, e.1 = normalize_name e.2.1 ∧ e.2 ∈ k) →
      ∀ e ∈ kl.foldl
        (fun m p => alistUpsert (normalize_name p.1) (p.1, p.2) m) m0,
        e.1 = normalize_name e.2.1 ∧ e.2 ∈ k by
    exact fun e he => h k [] (fun p hp => hp) (by simp) e he
  intro kl
  induction kl with
  | nil => intro m0 _ hm0 e he; exact hm0 e he
  | cons p r ih =>
    intro m0 hsub hm0 e he
    rw [List.foldl_cons] at he
    refine ih _ (fun q hq => hsub q (List.mem_cons_of_mem _ hq)) ?_ e he
    intro e' he'
    rcases mem_alistUpsert_pair he' with h' | h'
    · exact hm0 e' h'
    · rw [h']
      exact ⟨rfl, hsub p (List.mem_cons_self _ _)⟩

/-- On a table name whose normalised form only collides with literally
equal KML names, the generated header field is the quoted content. -/
lemma headerField_eq_content (k : List (String × KmlInfo)) (n : String)
    (hmatchn : ∀ q ∈ k, normalize_name q.1 = normalize_name n → q.1 = n) :
    (match alistGet (normalize_name n) (normMapOf k) with
     | some (orig, info) =>
       qwrap (orig ++ "[" ++ formatQ info.lat ++ "," ++ formatQ info.lon ++ "]")
     | none => qwrap n) = qwrap (diatechHeaderContent k n) := by
  unfold diatechHeaderContent
  cases hget : alistGet (normalize_name n) (normMapOf k) with
  | none => rfl
  | some oi =>
    obtain ⟨hkey, hmem⟩ := normMap_entry k _ (alistGet_some_mem hget)
    have horig : oi.1 = n := hmatchn oi hmem hkey.symm
    cases oi with
    | mk orig info =>
      show qwrap (orig ++ "[" ++ formatQ info.lat ++ "," ++
        formatQ info.lon ++ "]") = qwrap (n ++ "[" ++ formatQ info.lat ++ "," ++
        formatQ info.lon ++ "]")
      rw [show (orig, info).1 = orig from rfl] at horig
      rw [horig]

/-- A clean bracket-free header column parses to itself: the regex fails
and the name is kept unchanged. -/
lemma readDiatechHeaderCol_plain (n : String)
    (hq : ∀ ch ∈ n.data, ch ≠ '"') (hbr : ∀ ch ∈ n.data, ch ≠ '[')
    (ns : List String) (locs : List (String × GeoPt)) :
    readDiatechHeaderCol (ns, locs) n =
      some (ns ++ [n], alistUpsert n ⟨none, none⟩ locs) := by
  have hbm : '[' ∉ n.data := fun hm => hbr '[' hm rfl
  have hcond : ¬ (strHas '[' n = true ∧ strHas ']' n = true) := fun hcon => by
    rw [strHas_false_of_not_mem hbm] at hcon
    exact absurd hcon.1 (by simp)
  unfold readDiatechHeaderCol
  rw [regexHeaderMatch_none hbr, pyStripChar_id hq]
  show some (ns ++ [if strHas '[' n = true ∧ strHas ']' n = true then
      pyStrip ((pySplitChar '[' n).headD "") else n],
    alistUpsert (if strHas '[' n = true ∧ strHas ']' n = true then
      pyStrip ((pySplitChar '[' n).headD "") else n)
      (⟨none, none⟩ : GeoPt) locs) =
    some (ns ++ [n], alistUpsert n ⟨none, none⟩ locs)
  rw [if_neg hcond]

/-- A generated coordinate header column parses back to the clean name
with some parsed coordinates. -/
lemma readDiatechHeaderCol_coord (n : String) (hne : n ≠ "")
    (hstrip : pyStrip n = n)
    (hq : ∀ ch ∈ n.data, ch ≠ '"') (hcomma : ∀ ch ∈ n.data, ch ≠ ',')
    (hbr : ∀ ch ∈ n.data, ch ≠ '[') (la lo : PyFloat)
    (ns : List String) (locs : List (String × GeoPt)) :
    ∃ pt, readDiatechHeaderCol (ns, locs)
        (n ++ "[" ++ formatQ la ++ "," ++ formatQ lo ++ "]") =
      some (ns ++ [n], alistUpsert n pt locs) := by
  obtain ⟨laV, hla⟩ := pyFloat_formatQ_isSome la
  obtain ⟨loV, hlo⟩ := pyFloat_formatQ_isSome lo
  refine ⟨⟨some laV, some loV⟩, ?_⟩
  unfold readDiatechHeaderCol
  rw [regexHeaderMatch_format hne hq hbr la lo]
  show (match pyFloat (formatQ la), pyFloat (formatQ lo) with
    | some lat, some lon =>
      some (ns ++ [pyStrip ((pySplitChar ','
          (pyStripChar '"' n)).headD "")],
        alistUpsert (pyStrip ((pySplitChar ','
          (pyStripChar '"' n)).headD "")) (⟨some lat, some lon⟩ : GeoPt) locs)
    | _, _ => none) = some (ns ++ [n], alistUpsert n ⟨some laV, some loV⟩ locs)
  rw [pyStripChar_id hq, pySplitChar_no_sep hcomma,
    show List.headD [n] "" = n from rfl, hstrip, hla, hlo]

/-- Folding the header reader over the generated columns collects exactly
the table's locality names, in order. -/
lemma diatechHeaderFold (k : List (String × KmlInfo))
    (d0 : List (String × List String))
    (hclean : ∀ p ∈ d0, p.1 ≠ "" ∧ pyStrip p.1 = p.1 ∧
      ∀ ch ∈ p.1.data, ch ≠ '"' ∧ ch ≠ ',' ∧ ch ≠ '[') :
    ∀ (dB : List (String × List String)), (∀ p ∈ dB, p ∈ d0) →
      ∀ (ns : List String) (locs : List (String × GeoPt)),
        ∃ locs', List.foldlM readDiatechHeaderCol (ns, locs)
            (dB.map (fun p => diatechHeaderContent k p.1)) =
          some (ns ++ dB.map Prod.fst, locs') := by
  intro dB
  induction dB with
  | nil => intro _ ns locs; exact ⟨locs, by simp⟩
  | cons p dB' ih =>
    intro hsub ns locs
    obtain ⟨hne, hstrip, hchars⟩ := hclean p (hsub p (List.mem_cons_self _ _))
    have hq : ∀ ch ∈ p.1.data, ch ≠ '"' := fun ch hch => (hchars ch hch).1
    have hcm : ∀ ch ∈ p.1.data, ch ≠ ',' := fun ch hch => (hchars ch hch).2.1
    have hbr : ∀ ch ∈ p.1.data, ch ≠ '[' := fun ch hch => (hchars ch hch).2.2
    have hstep : ∃ pt, readDiatechHeaderCol (ns, locs)
        (diatechHeaderContent k p.1) =
        some (ns ++ [p.1], alistUpsert p.1 pt locs) := by
      unfold diatechHeaderContent
      cases alistGet (normalize_name p.1) (normMapOf k) with
      | none =>
        exact ⟨⟨none, none⟩, readDiatechHeaderCol_plain p.1 hq hbr ns locs⟩
      | some oi =>
        exact readDiatechHeaderCol_coord p.1 hne hstrip hq hcm hbr
          oi.2.lat oi.2.lon ns locs
    obtain ⟨pt, hpt⟩ := hstep
    obtain ⟨locs', hrest⟩ :=
      ih (fun q hq' => hsub q (List.mem_cons_of_mem _ hq'))
        (ns ++ [p.1]) (alistUpsert p.1 pt locs)
    refine ⟨locs', ?_⟩
    rw [List.map_cons, List.foldlM_cons, hpt]
    show List.foldlM readDiatechHeaderCol
      (ns ++ [p.1], alistUpsert p.1 pt locs)
      (dB'.map (fun p => diatechHeaderContent k p.1)) = _
    rw [hrest]
    simp

/-- The locality table state after the first `i` data rows: absent before
the first row, otherwise every locality holds the first `i` variants. -/
def truncRep (i : Nat) (d : List (String × List String)) :
    List (String × List String) :=
  if i = 0 then [] else d.map (fun p => (p.1, p.2.take i))

lemma truncRep_zero (d : List (String × List String)) : truncRep 0 d = [] := by
  unfold truncRep
  rw [if_pos rfl]

lemma truncRep_pos {i : Nat} (hi : i ≠ 0) (d : List (String × List String)) :
    truncRep i d = d.map (fun p => (p.1, p.2.take i)) := by
  unfold truncRep
  rw [if_neg hi]

/-- One data row's cell assignments move the table from the `i`-rows state
to the `i+1`-rows state. -/
lemma diatechColsFold (c : List String) (d : List (String × List String))
    (hnd : (d.map Prod.fst).Nodup)
    (hlen : ∀ p ∈ d, (p.2).length = c.length)
    (hvars : ∀ p ∈ d, ∀ v ∈ p.2, pyStrip (pyStripChar '"' v) = v)
    (i : Nat) (hi : i < c.length)
    (conceptos : List String) (hclen : conceptos.length = i + 1) :
    ∀ (dB dA : List (String × List String)), d = dA ++ dB →
      List.foldl (diatechAssign (d.map Prod.fst) conceptos)
        (dA.map (fun p => (p.1, p.2.take (i + 1))) ++ truncRep i dB)
        (List.enumFrom dA.length (dB.map (fun p => p.2.getD i "")))
      = d.map (fun p => (p.1, p.2.take (i + 1))) := by
  intro dB
  induction dB with
  | nil =>
    intro dA hsplit
    show dA.map _ ++ truncRep i [] = _
    have ht : truncRep i ([] : List (String × List String)) = [] := by
      unfold truncRep
      split <;> rfl
    rw [ht, List.append_nil, hsplit, List.append_nil]
  | cons p dB' ih =>
    intro dA hsplit
    have hpd : p ∈ d := by
      rw [hsplit]
      exact List.mem_append_right _ (List.mem_cons_self _ _)
    have hplen : (p.2).length = c.length := hlen p hpd
    have hip : i < (p.2).length := by rw [hplen]; exact hi
    have hkeys : d.map Prod.fst = dA.map Prod.fst ++ p.1 :: dB'.map Prod.fst := by
      rw [hsplit]
      simp
    have hname : (d.map Prod.fst).getD dA.length "" = p.1 := by
      have h := getD_append_length (dA.map Prod.fst) p.1 (dB'.map Prod.fst) ""
      rw [List.length_map] at h
      rw [hkeys]
      exact h
    have hidx : dA.length < (d.map Prod.fst).length := by
      rw [List.length_map, hsplit, List.length_append]
      simp
    have hnot : p.1 ∉ dA.map Prod.fst := by
      have hnd' := hkeys ▸ hnd
      rcases List.nodup_append.mp hnd' with ⟨_, _, hdisj⟩
      intro hmem
      exact hdisj hmem (List.mem_cons_self _ _)
    have hnotA : p.1 ∉ (dA.map (fun p => (p.1, p.2.take (i + 1)))).map Prod.fst := by
      rw [map_fst_pairmap]
      exact hnot
    have hvtake : p.2.take (i + 1) = p.2.take i ++ [p.2.getD i ""] := by
      rw [List.take_succ, List.getElem?_eq_getElem hip,
        List.getD_eq_getElem p.2 "" hip]
      rfl
    have hvclean : pyStrip (pyStripChar '"' (p.2.getD i "")) = p.2.getD i "" := by
      rcases getD_mem_or p.2 i "" with hm | hm
      · exact hvars p hpd _ hm
      · rw [hm]
        rfl
    rw [show List.enumFrom dA.length ((p :: dB').map (fun p => p.2.getD i "")) =
      (dA.length, p.2.getD i "") ::
        List.enumFrom (dA.length + 1) (dB'.map (fun p => p.2.getD i "")) from rfl]
    rw [List.foldl_cons]
    have hstep : diatechAssign (d.map Prod.fst) conceptos
        (dA.map (fun p => (p.1, p.2.take (i + 1))) ++ truncRep i (p :: dB'))
        (dA.length, p.2.getD i "") =
        (dA ++ [p]).map (fun p => (p.1, p.2.take (i + 1))) ++ truncRep i dB' := by
      simp only [diatechAssign]
      rw [if_pos hidx, hname, hvclean]
      by_cases hi0 : i = 0
      · subst hi0
        rw [truncRep_zero, truncRep_zero, List.append_nil, List.append_nil]
        have hget : alistGet p.1 (dA.map (fun p => (p.1, p.2.take (0 + 1)))) =
            none := alistGet_eq_none_of_not_mem hnotA
        rw [hget]
        rw [if_neg (by simp)]
        rw [alistGet_append_right [(p.1, [])] hnotA]
        rw [show alistGet p.1 [(p.1, ([] : List String))] = some [] from by
          show (if p.1 = p.1 then some [] else none) = some []
          rw [if_pos rfl]]
        rw [alistSet_append_right _ [(p.1, [])] hnotA]
        rw [hclen]
        show dA.map _ ++ alistSet p.1 ([""].set 0 (p.2.getD 0 "")) [(p.1, [])] = _
        rw [show ([""].set 0 (p.2.getD 0 "")) = [p.2.getD 0 ""] from rfl]
        rw [show alistSet p.1 [p.2.getD 0 ""] [(p.1, ([] : List String))] =
          [(p.1, [p.2.getD 0 ""])] from by
          show (if p.1 = p.1 then (p.1, [p.2.getD 0 ""]) :: [] else _) = _
          rw [if_pos rfl]]
        rw [List.map_append]
        simp only [List.map_cons, List.map_nil]
        rw [hvtake]
        simp
      · rw [truncRep_pos hi0, truncRep_pos hi0, List.map_cons]
        have hget : alistGet p.1
            (dA.map (fun p => (p.1, p.2.take (i + 1))) ++
              (p.1, p.2.take i) :: dB'.map (fun p => (p.1, p.2.take i))) =
            some (p.2.take i) := by
          rw [alistGet_append_right _ hnotA]
          show (if p.1 = p.1 then some (p.2.take i) else _) = _
          rw [if_pos rfl]
        rw [hget]
        rw [if_pos (by simp)]
        rw [hget]
        rw [show (some (p.2.take i)).getD ([] : List String) = p.2.take i
          from rfl]
        have hlentake : (p.2.take i).length = i := by
          rw [List.length_take]
          omega
        have hgrow : growTo conceptos.length (p.2.take i) =
            p.2.take i ++ [""] := by
          unfold growTo
          rw [hclen, hlentake, show i + 1 - i = 1 from by omega]
          rfl
        rw [hgrow, hclen, show i + 1 - 1 = i from by omega]
        have hset : (p.2.take i ++ [""]).set i (p.2.getD i "") =
            p.2.take i ++ [p.2.getD i ""] := by
          have h := set_append_length (p.2.take i) "" (p.2.getD i "") []
          rw [hlentake] at h
          exact h
        rw [hset]
        rw [← hvtake]
        rw [alistSet_append_right _ _ hnotA]
        rw [show alistSet p.1 (p.2.take (i + 1))
            ((p.1, p.2.take i) :: dB'.map (fun p => (p.1, p.2.take i))) =
          (p.1, p.2.take (i + 1)) :: dB'.map (fun p => (p.1, p.2.take i)) from by
          show (if p.1 = p.1 then _ else _) = _
          rw [if_pos rfl]]
        rw [List.map_append]
        simp
    rw [hstep]
    have hrec := ih (dA ++ [p]) (by rw [hsplit]; simp)
    rw [show (dA ++ [p]).length = dA.length + 1 from by simp] at hrec
    exact hrec

/-- The generated data-row fields for concept `i` are the quoted `i`-th
variants, in table order. -/
lemma csvFieldMap_eq (c : List String) (d : List (String × List String))
    (hnd : (d.map Prod.fst).Nodup)
    (hlen : ∀ p ∈ d, (p.2).length = c.length)
    (i : Nat) (hi : i < c.length) :
    (d.map Prod.fst).map (fun n =>
      match alistGet n d with
      | some vs => if i < vs.length then
          (if vs.getD i "" ≠ "" then qwrap (vs.getD i "") else qwrap "")
        else qwrap ""
      | none => qwrap "") = (d.map (fun p => p.2.getD i "")).map qwrap := by
  rw [List.map_map, List.map_map]
  refine List.map_eq_map_iff.mpr ?_
  intro p hp
  show (match alistGet p.1 d with
    | some vs => if i < vs.length then
        (if vs.getD i "" ≠ "" then qwrap (vs.getD i "") else qwrap "")
      else qwrap ""
    | none => qwrap "") = qwrap (p.2.getD i "")
  rw [alistGet_of_mem_nodup hnd hp]
  show (if i < (p.2).length then
      (if p.2.getD i "" ≠ "" then qwrap (p.2.getD i "") else qwrap "")
    else qwrap "") = qwrap (p.2.getD i "")
  rw [if_pos (by rw [hlen p hp]; exact hi)]
  by_cases hz : p.2.getD i "" = ""
  · rw [if_neg (fun hcon => hcon hz), hz]
  · rw [if_pos hz]

/-- Reading one generated data row extends the concept list by the row's
concept and advances the table by one variant per locality. -/
lemma diatechRowStep (c : List String) (d : List (String × List String))
    (hnd : (d.map Prod.fst).Nodup) (_hd0 : d ≠ [])
    (hlen : ∀ p ∈ d, (p.2).length = c.length)
    (hvars : ∀ p ∈ d, ∀ v ∈ p.2, pyStrip v = v ∧ ∀ ch ∈ v.data, ch ≠ '"')
    (i : Nat) (hi : i < c.length) (x : String) (hx : c.getD i "" = x)
    (hxne : x ≠ "") (hxstrip : pyStrip x = x)
    (hxq : ∀ ch ∈ x.data, ch ≠ '"') :
    readDiatechRow (d.map Prod.fst) (c.take i, truncRep i d)
      (joinSep ";" ((x :: d.map (fun p => p.2.getD i "")).map qwrap)) =
    some (c.take (i + 1), truncRep (i + 1) d) := by
  have hfields : csvNextRow
      (joinSep ";" ((x :: d.map (fun p => p.2.getD i "")).map qwrap)) =
      some (x :: d.map (fun p => p.2.getD i "")) := by
    refine csvNextRow_fields _ (by simp) ?_
    intro f hf ch hch
    rcases List.mem_cons.mp hf with rfl | hf'
    · exact hxq ch hch
    · rcases List.mem_map.mp hf' with ⟨p, hp, hpf⟩
      rw [← hpf] at hch
      rcases getD_mem_or p.2 i "" with hm | hm
      · exact (hvars p hp _ hm).2 ch hch
      · rw [hm] at hch
        exact absurd hch (List.not_mem_nil ch)
  unfold readDiatechRow
  rw [hfields]
  show (if pyStrip (pyStripChar '"' (pyStrip x)) = "" then
      some (c.take i, truncRep i d)
    else some (c.take i ++ [pyStrip (pyStripChar '"' (pyStrip x))],
      ((d.map (fun p => p.2.getD i "")).enum).foldl
        (diatechAssign (d.map Prod.fst)
          (c.take i ++ [pyStrip (pyStripChar '"' (pyStrip x))]))
        (truncRep i d))) = some (c.take (i + 1), truncRep (i + 1) d)
  rw [hxstrip, pyStripChar_id hxq, hxstrip]
  rw [if_neg hxne]
  have hic : i < c.length := hi
  have htake : c.take (i + 1) = c.take i ++ [x] := by
    rw [List.take_succ, List.getElem?_eq_getElem hic,
      ← List.getD_eq_getElem c "" hic, hx]
    rfl
  rw [← htake]
  have hclen : (c.take (i + 1)).length = i + 1 := by
    rw [List.length_take]
    omega
  have hcols := diatechColsFold c d hnd hlen
    (fun p hp v hv => by
      rw [pyStripChar_id (hvars p hp v hv).2, (hvars p hp v hv).1])
    i hi (c.take (i + 1)) hclen d [] rfl
  simp only [List.map_nil, List.nil_append, List.length_nil] at hcols
  rw [show ((d.map (fun p => p.2.getD i "")).enum) =
    List.enumFrom 0 (d.map (fun p => p.2.getD i "")) from rfl]
  rw [hcols]
  rw [truncRep_pos (by omega) d]

lemma getD_of_drop_cons {α : Type} :
    ∀ (l : List α) (j : Nat) {x : α} {r : List α} (d0 : α),
      l.drop j = x :: r → l.getD j d0 = x := by
  intro l
  induction l with
  | nil =>
    intro j x r d0 h
    rw [List.drop_nil] at h
    cases h
  | cons y l' ih =>
    intro j x r d0 h
    cases j with
    | zero =>
      rw [List.drop_zero] at h
      injection h with h1 h2
    | succ j' =>
      show l'.getD j' d0 = x
      exact ih j' d0 h

/-- Folding the row reader over the generated data rows from row `j`
onward rebuilds the full concept list and table. -/
lemma diatechRowsFold (c : List String) (d : List (String × List String))
    (hc1 : 1 ≤ c.length) (hd0 : d ≠ [])
    (hnd : (d.map Prod.fst).Nodup)
    (hlen : ∀ p ∈ d, (p.2).length = c.length)
    (hvars : ∀ p ∈ d, ∀ v ∈ p.2, pyStrip v = v ∧ ∀ ch ∈ v.data, ch ≠ '"')
    (hcClean : ∀ x ∈ c, x ≠ "" ∧ pyStrip x = x ∧ ∀ ch ∈ x.data, ch ≠ '"') :
    ∀ (cs : List String) (j : Nat), c.drop j = cs →
      List.foldlM (readDiatechRow (d.map Prod.fst)) (c.take j, truncRep j d)
        ((List.enumFrom j cs).map (fun q => joinSep ";"
          ((q.2 :: d.map (fun p => p.2.getD q.1 "")).map qwrap))) =
      some (c, d) := by
  intro cs
  induction cs with
  | nil =>
    intro j hdrop
    have hjc : c.length ≤ j := by
      by_contra hcon
      rw [List.drop_eq_nil_iff] at hdrop
      omega
    show some (c.take j, truncRep j d) = some (c, d)
    rw [List.take_of_length_le hjc, truncRep_pos (by omega) d]
    have hdd : d.map (fun p => (p.1, p.2.take j)) = d := by
      have : ∀ p ∈ d, (fun (p : String × List String) =>
          (p.1, p.2.take j)) p = (fun p => p) p := by
        intro p hp
        show (p.1, p.2.take j) = p
        rw [List.take_of_length_le (by rw [hlen p hp]; omega)]
      rw [List.map_eq_map_iff.mpr this, List.map_id']
    rw [hdd]
  | cons x cs' ih =>
    intro j hdrop
    have hj : j < c.length := by
      by_contra hcon
      rw [List.drop_eq_nil_of_le (by omega)] at hdrop
      exact absurd hdrop (by simp)
    have hx : c.getD j "" = x := getD_of_drop_cons c j "" hdrop
    have hxm : x ∈ c :=
      List.drop_subset j c (by rw [hdrop]; exact List.mem_cons_self _ _)
    obtain ⟨hxne, hxstrip, hxq⟩ := hcClean x hxm
    have hdrop' : c.drop (j + 1) = cs' := by
      have h1 : (c.drop j).drop 1 = c.drop (j + 1) := List.drop_drop 1 j c
      rw [hdrop] at h1
      exact h1.symm ▸ rfl
    rw [show List.enumFrom j (x :: cs') = (j, x) :: List.enumFrom (j + 1) cs'
      from rfl]
    rw [List.map_cons, List.foldlM_cons]
    rw [diatechRowStep c d hnd hd0 hlen hvars j hj x hx hxne hxstrip hxq]
    show List.foldlM (readDiatechRow (d.map Prod.fst))
      (c.take (j + 1), truncRep (j + 1) d)
      ((List.enumFrom (j + 1) cs').map (fun q => joinSep ";"
        ((q.2 :: d.map (fun p => p.2.getD q.1 "")).map qwrap))) = some (c, d)
    exact ih (j + 1) hdrop'

lemma numClass_ne_quote {c : Char} (h : isNumClassChar c = true) :
    c ≠ '"' := by
  intro hc
  subst hc
  rcases isNumClassChar_toNat h with h' | h' | h' <;>
    (rw [show ('"').toNat = 34 from rfl] at h'; omega)

lemma numClass_not_break {c : Char} (h : isNumClassChar c = true) :
    isPyLineBreak c = false :=
  not_break_of_not_space (numClass_not_space h)

/-- Characters of a generated header content: no line breaks, no quotes. -/
lemma diatechHeaderContent_chars (kl : List (String × KmlInfo)) (n : String)
    (hn : ∀ ch ∈ n.data, isPyLineBreak ch = false ∧ ch ≠ '"') :
    ∀ ch ∈ (diatechHeaderContent kl n).data,
      isPyLineBreak ch = false ∧ ch ≠ '"' := by
  unfold diatechHeaderContent
  cases alistGet (normalize_name n) (normMapOf kl) with
  | none => exact hn
  | some oi =>
    intro ch hch
    simp only [data_append] at hch
    rcases List.mem_append.mp hch with h1 | h1
    · rcases List.mem_append.mp h1 with h2 | h2
      · rcases List.mem_append.mp h2 with h3 | h3
        · rcases List.mem_append.mp h3 with h4 | h4
          · rcases List.mem_append.mp h4 with h5 | h5
            · exact hn ch h5
            · rw [List.mem_singleton.mp h5]
              exact ⟨by decide, by decide⟩
          · have hnc := formatQData_chars oi.2.lat ch h4
            exact ⟨numClass_not_break hnc, numClass_ne_quote hnc⟩
        · rw [List.mem_singleton.mp h3]
          exact ⟨by decide, by decide⟩
      · have hnc := formatQData_chars oi.2.lon ch h2
        exact ⟨numClass_not_break hnc, numClass_ne_quote hnc⟩
    · rw [List.mem_singleton.mp h1]
      exact ⟨by decide, by decide⟩

/-- Parsing the generated Diatech CSV recovers the concept list and the
locality table exactly (the coordinate map is existentially quantified). -/
lemma diatech_read_back (c : List String) (d : List (String × List String))
    (kl : List (String × KmlInfo))
    (hc1 : 1 ≤ c.length) (hd0 : d ≠ [])
    (hnd : (d.map Prod.fst).Nodup)
    (hlen : ∀ p ∈ d, (p.2).length = c.length)
    (hcClean : ∀ x ∈ c, x ≠ "" ∧ pyStrip x = x ∧
      ∀ ch ∈ x.data, ch ≠ '"' ∧ isPyLineBreak ch = false)
    (hnClean : ∀ p ∈ d, p.1 ≠ "" ∧ pyStrip p.1 = p.1 ∧
      ∀ ch ∈ (p.1).data, ch ≠ '"' ∧ ch ≠ ',' ∧ ch ≠ '[' ∧
        isPyLineBreak ch = false)
    (hvClean : ∀ p ∈ d, ∀ v ∈ p.2, pyStrip v = v ∧
      ∀ ch ∈ v.data, ch ≠ '"' ∧ isPyLineBreak ch = false)
    (hmatch : ∀ p ∈ d, ∀ q ∈ kl,
      normalize_name q.1 = normalize_name p.1 → q.1 = p.1) :
    ∃ locs, read_diatech_csv_from_str (create_diatech_csv_bytes c d kl) =
      some (c, d, locs) := by
  have hench : (d.map Prod.fst).map (fun n =>
      match alistGet (normalize_name n) (normMapOf kl) with
      | some (orig, info) =>
        qwrap (orig ++ "[" ++ formatQ info.lat ++ "," ++ formatQ info.lon ++ "]")
      | none => qwrap n) =
      (d.map (fun p => diatechHeaderContent kl p.1)).map qwrap := by
    rw [List.map_map, List.map_map]
    refine List.map_eq_map_iff.mpr ?_
    intro p hp
    show (match alistGet (normalize_name p.1) (normMapOf kl) with
      | some (orig, info) =>
        qwrap (orig ++ "[" ++ formatQ info.lat ++ "," ++ formatQ info.lon ++ "]")
      | none => qwrap p.1) = qwrap (diatechHeaderContent kl p.1)
    exact headerField_eq_content kl p.1 (fun q hq hqn => hmatch p hp q hq hqn)
  have hrows : (List.enumFrom 0 c).map (fun q => qwrap q.2 ++ ";" ++ joinSep ";"
      ((d.map Prod.fst).map (fun n =>
        match alistGet n d with
        | some vs => if q.1 < vs.length then
            (if vs.getD q.1 "" ≠ "" then qwrap (vs.getD q.1 "") else qwrap "")
          else qwrap ""
        | none => qwrap "")) ++ "\r\n") =
      ((List.enumFrom 0 c).map (fun q => joinSep ";"
        ((q.2 :: d.map (fun p => p.2.getD q.1 "")).map qwrap))).map
          (· ++ "\r\n") := by
    rw [List.map_map]
    refine List.map_eq_map_iff.mpr ?_
    intro q hq
    obtain ⟨i, x⟩ := q
    obtain ⟨_, hilt, _⟩ := List.mem_enumFrom hq
    have hi : i < c.length := by simpa using hilt
    show qwrap x ++ ";" ++ joinSep ";"
      ((d.map Prod.fst).map (fun n =>
        match alistGet n d with
        | some vs => if i < vs.length then
            (if vs.getD i "" ≠ "" then qwrap (vs.getD i "") else qwrap "")
          else qwrap ""
        | none => qwrap "")) ++ "\r\n" =
      joinSep ";" ((x :: d.map (fun p => p.2.getD i "")).map qwrap) ++ "\r\n"
    rw [csvFieldMap_eq c d hnd hlen i hi]
    rw [List.map_cons, joinSep_cons ";" (qwrap x) (by simp [hd0])]
  have hcsv : create_diatech_csv_bytes c d kl =
      strConcat (((qwrap "" ++ ";" ++ joinSep ";"
          ((d.map (fun p => diatechHeaderContent kl p.1)).map qwrap)) ::
        (List.enumFrom 0 c).map (fun q => joinSep ";"
          ((q.2 :: d.map (fun p => p.2.getD q.1 "")).map qwrap))).map
            (· ++ "\r\n")) := by
    show (qwrap "" ++ ";" ++ joinSep ";" ((d.map Prod.fst).map (fun n =>
        match alistGet (normalize_name n) (normMapOf kl) with
        | some (orig, info) =>
          qwrap (orig ++ "[" ++ formatQ info.lat ++ "," ++
            formatQ info.lon ++ "]")
        | none => qwrap n)) ++ "\r\n") ++
      strConcat ((List.enumFrom 0 c).map (fun q =>
        qwrap q.2 ++ ";" ++ joinSep ";"
          ((d.map Prod.fst).map (fun n =>
            match alistGet n d with
            | some vs => if q.1 < vs.length then
                (if vs.getD q.1 "" ≠ "" then qwrap (vs.getD q.1 "")
                  else qwrap "")
              else qwrap ""
            | none => qwrap "")) ++ "\r\n")) = _
    rw [hench, hrows]
    rfl
  have hheadclean : ∀ ch ∈ (qwrap "" ++ ";" ++ joinSep ";"
      ((d.map (fun p => diatechHeaderContent kl p.1)).map qwrap)).data,
      isPyLineBreak ch = false := by
    intro ch hch
    simp only [data_append] at hch
    rcases List.mem_append.mp hch with h1 | h1
    · rcases List.mem_append.mp h1 with h2 | h2
      · rcases List.mem_append.mp (by simpa [qwrap_data] using h2 :
          ch ∈ ['"'] ++ [('"' : Char)]) with h3 | h3
        · rw [List.mem_singleton.mp h3]; decide
        · rw [List.mem_singleton.mp h3]; decide
      · rw [List.mem_singleton.mp (by simpa using h2 : ch ∈ [(';' : Char)])]
        decide
    · rcases joinSep_chars ";" _ ch h1 with ⟨f, hf, hchf⟩ | h2
      · rcases List.mem_map.mp hf with ⟨g, hg, hgf⟩
        rcases List.mem_map.mp hg with ⟨p, hp, hpg⟩
        rw [← hgf, ← hpg, qwrap_data] at hchf
        rcases List.mem_cons.mp hchf with rfl | h3
        · decide
        · rcases List.mem_append.mp h3 with h4 | h4
          · refine (diatechHeaderContent_chars kl p.1 ?_ ch h4).1
            intro ch' hch'
            obtain ⟨_, _, hchars⟩ := hnClean p hp
            exact ⟨(hchars ch' hch').2.2.2, (hchars ch' hch').1⟩
          · rw [List.mem_singleton.mp h4]; decide
      · rw [List.mem_singleton.mp (by simpa using h2 : ch ∈ [(';' : Char)])]
        decide
  have hrowclean : ∀ q ∈ List.enumFrom 0 c, ∀ ch ∈ (joinSep ";"
      ((q.2 :: d.map (fun p => p.2.getD q.1 "")).map qwrap)).data,
      isPyLineBreak ch = false := by
    intro q hq ch hch
    obtain ⟨i, x⟩ := q
    obtain ⟨_, hilt, hxi⟩ := List.mem_enumFrom hq
    have hxm : x ∈ c := by
      rw [hxi]
      exact List.getElem_mem _
    rcases joinSep_chars ";" _ ch hch with ⟨f, hf, hchf⟩ | h2
    · rcases List.mem_map.mp hf with ⟨g, hg, hgf⟩
      rw [← hgf, qwrap_data] at hchf
      rcases List.mem_cons.mp hchf with rfl | h3
      · decide
      · rcases List.mem_append.mp h3 with h4 | h4
        · rcases List.mem_cons.mp hg with hgx | hg'
          · rw [hgx] at h4
            exact ((hcClean x hxm).2.2 ch h4).2
          · rcases List.mem_map.mp hg' with ⟨p, hp, hpg⟩
            rw [← hpg] at h4
            rcases getD_mem_or p.2 i "" with hm | hm
            · exact ((hvClean p hp _ hm).2 ch h4).2
            · rw [hm] at h4
              exact absurd h4 (List.not_mem_nil ch)
        · rw [List.mem_singleton.mp h4]; decide
    · rw [List.mem_singleton.mp (by simpa using h2 : ch ∈ [(';' : Char)])]
      decide
  have hsplitlines : pySplitlines (create_diatech_csv_bytes c d kl) =
      (qwrap "" ++ ";" ++ joinSep ";"
        ((d.map (fun p => diatechHeaderContent kl p.1)).map qwrap)) ::
      (List.enumFrom 0 c).map (fun q => joinSep ";"
        ((q.2 :: d.map (fun p => p.2.getD q.1 "")).map qwrap)) := by
    rw [hcsv]
    refine pySplitlines_strConcat _ ?_
    intro l hl
    rcases List.mem_cons.mp hl with rfl | hl'
    · exact hheadclean
    · rcases List.mem_map.mp hl' with ⟨q, hq, hql⟩
      rw [← hql]
      exact hrowclean q hq
  have hquotefree : ∀ f ∈ ("" ::
      d.map (fun p => diatechHeaderContent kl p.1)), ∀ ch ∈ f.data,
      ch ≠ '"' := by
    intro f hf ch hch
    rcases List.mem_cons.mp hf with rfl | hf'
    · exact absurd hch (List.not_mem_nil ch)
    · rcases List.mem_map.mp hf' with ⟨p, hp, hpf⟩
      rw [← hpf] at hch
      refine (diatechHeaderContent_chars kl p.1 ?_ ch hch).2
      intro ch' hch'
      obtain ⟨_, _, hchars⟩ := hnClean p hp
      exact ⟨(hchars ch' hch').2.2.2, (hchars ch' hch').1⟩
  have hhdrjoin : (qwrap "" ++ ";" ++ joinSep ";"
      ((d.map (fun p => diatechHeaderContent kl p.1)).map qwrap)) =
      joinSep ";" (("" :: d.map (fun p => diatechHeaderContent kl p.1)).map
        qwrap) := by
    rw [List.map_cons, joinSep_cons ";" (qwrap "") (by simp [hd0])]
  have hnext : csvNextRow (qwrap "" ++ ";" ++ joinSep ";"
      ((d.map (fun p => diatechHeaderContent kl p.1)).map qwrap)) =
      some ("" :: d.map (fun p => diatechHeaderContent kl p.1)) := by
    rw [hhdrjoin]
    exact csvNextRow_fields _ (by simp) hquotefree
  obtain ⟨locs', hfold⟩ := diatechHeaderFold kl d
    (fun p hp => by
      obtain ⟨hne, hstrip, hchars⟩ := hnClean p hp
      exact ⟨hne, hstrip, fun ch hch => ⟨(hchars ch hch).1,
        (hchars ch hch).2.1, (hchars ch hch).2.2.1⟩⟩)
    d (fun p hp => hp) [] []
  rw [List.nil_append] at hfold
  have hrowsfold := diatechRowsFold c d hc1 hd0 hnd hlen
    (fun p hp v hv => ⟨(hvClean p hp v hv).1,
      fun ch hch => ((hvClean p hp v hv).2 ch hch).1⟩)
    (fun x hx => ⟨(hcClean x hx).1, (hcClean x hx).2.1,
      fun ch hch => ((hcClean x hx).2.2 ch hch).1⟩)
    c 0 (List.drop_zero c)
  simp only [List.take_zero, truncRep_zero] at hrowsfold
  refine ⟨locs', ?_⟩
  unfold read_diatech_csv_from_str
  rw [hsplitlines]
  show (match csvNextRow (qwrap "" ++ ";" ++ joinSep ";"
      ((d.map (fun p => diatechHeaderContent kl p.1)).map qwrap)) with
    | none => none
    | some header =>
      (header.drop 1).foldlM readDiatechHeaderCol ([], []) >>= fun hdr =>
        (((List.enumFrom 0 c).map (fun q => joinSep ";"
          ((q.2 :: d.map (fun p => p.2.getD q.1 "")).map qwrap))).foldlM
            (readDiatechRow hdr.1) ([], [])).map fun cd =>
          (cd.1, cd.2, hdr.2)) = some (c, d, locs')
  rw [hnext]
  show ((d.map (fun p => diatechHeaderContent kl p.1)).foldlM
      readDiatechHeaderCol ([], []) >>= fun hdr =>
      (((List.enumFrom 0 c).map (fun q => joinSep ";"
        ((q.2 :: d.map (fun p => p.2.getD q.1 "")).map qwrap))).foldlM
          (readDiatechRow hdr.1) ([], [])).map fun cd =>
        (cd.1, cd.2, hdr.2)) = some (c, d, locs')
  rw [hfold]
  show (((List.enumFrom 0 c).map (fun q => joinSep ";"
      ((q.2 :: d.map (fun p => p.2.getD q.1 "")).map qwrap))).foldlM
        (readDiatechRow (d.map Prod.fst)) ([], [])).map (fun cd =>
      (cd.1, cd.2, locs')) = some (c, d, locs')
  rw [hrowsfold]
  rfl

/-- The Gabmap writer fold: when every stored list is long enough, it
appends one line per key and leaves the table unchanged. -/
lemma gabmapFold (c : List String) (d : List (String × List String))
    (hlen : ∀ p ∈ d, c.length ≤ (p.2).length) :
    ∀ (ks : List String), (∀ n ∈ ks, n ∈ d.map Prod.fst) →
      ∀ (acc : String), ks.foldl (gabmapLocalityStep c) (acc, d) =
        (acc ++ strConcat (ks.map (fun n =>
          cleanLocalityName n ++ "\t" ++
            joinSep "\t" ((alistGet n d).getD []) ++ "\r\n")), d) := by
  intro ks
  induction ks with
  | nil =>
    intro _ acc
    show (acc, d) = (acc ++ strConcat [], d)
    rw [show strConcat [] = "" from rfl]
    rw [String.append_empty]
  | cons n ks' ih =>
    intro hsub acc
    rw [List.foldl_cons]
    have hnk : n ∈ d.map Prod.fst := hsub n (List.mem_cons_self _ _)
    have hget : (alistGet n d).isSome := alistGet_isSome_of_mem_keys hnk
    obtain ⟨vs, hvs⟩ : ∃ vs, alistGet n d = some vs := by
      cases h : alistGet n d with
      | none => rw [h] at hget; exact absurd hget (by simp)
      | some vs => exact ⟨vs, rfl⟩
    have hvmem : (n, vs) ∈ d := alistGet_some_mem hvs
    have hvlen : c.length ≤ vs.length := hlen (n, vs) hvmem
    have hstep : gabmapLocalityStep c (acc, d) n =
        (acc ++ (cleanLocalityName n ++ "\t" ++
          joinSep "\t" ((alistGet n d).getD []) ++ "\r\n"), d) := by
      show (acc ++ (cleanLocalityName n ++ "\t" ++
          joinSep "\t" (growTo c.length ((alistGet n d).getD [])) ++ "\r\n"),
        alistSet n (growTo c.length ((alistGet n d).getD [])) d) = _
      rw [hvs]
      rw [show (some vs).getD ([] : List String) = vs from rfl]
      rw [growTo_of_le hvlen, alistSet_self hvs]
    rw [hstep]
    rw [ih (fun m hm => hsub m (List.mem_cons_of_mem _ hm))
      (acc ++ (cleanLocalityName n ++ "\t" ++
        joinSep "\t" ((alistGet n d).getD []) ++ "\r\n"))]
    show (_, d) = (_, d)
    rw [show strConcat ((n :: ks').map (fun n =>
        cleanLocalityName n ++ "\t" ++
          joinSep "\t" ((alistGet n d).getD []) ++ "\r\n")) =
      (cleanLocalityName n ++ "\t" ++
        joinSep "\t" ((alistGet n d).getD []) ++ "\r\n") ++
      strConcat (ks'.map (fun n => cleanLocalityName n ++ "\t" ++
        joinSep "\t" ((alistGet n d).getD []) ++ "\r\n")) from rfl]
    rw [String.append_assoc]

/-- The rendered Gabmap TXT of a full clean table: the concept header
line, then one line per locality in sorted order carrying the stored
variants verbatim. -/
lemma gabmap_writer (c : List String) (d : List (String × List String))
    (hlen : ∀ p ∈ d, c.length ≤ (p.2).length)
    (hnames : ∀ p ∈ d, ∀ ch ∈ (p.1).data,
      ch ≠ '[' ∧ isPyLineBreak ch = false)
    (hconcepts : ∀ x ∈ c, ∀ ch ∈ x.data, isPyLineBreak ch = false)
    (hvars : ∀ p ∈ d, ∀ v ∈ p.2, ∀ ch ∈ v.data, isPyLineBreak ch = false) :
    pySplitlines (create_gabmap_txt_bytes c d).1 =
      joinSep "\t" c :: (sortStrings (d.map Prod.fst)).map (fun n =>
        n ++ "\t" ++ joinSep "\t" ((alistGet n d).getD [])) := by
  have hclean : (sortStrings (d.map Prod.fst)).map (fun n =>
      cleanLocalityName n ++ "\t" ++
        joinSep "\t" ((alistGet n d).getD []) ++ "\r\n") =
      ((sortStrings (d.map Prod.fst)).map (fun n =>
        n ++ "\t" ++ joinSep "\t" ((alistGet n d).getD []))).map
          (· ++ "\r\n") := by
    rw [List.map_map]
    refine List.map_eq_map_iff.mpr ?_
    intro n hn
    obtain ⟨p, hp, hpn⟩ := List.mem_map.mp (mem_sortStrings hn)
    have hbm : '[' ∉ n.data := by
      intro hm
      rw [← hpn] at hm
      exact (hnames p hp '[' hm).1 rfl
    have hcln : cleanLocalityName n = n := by
      unfold cleanLocalityName
      rw [if_neg (fun hcon => by
        rw [strHas_false_of_not_mem hbm] at hcon
        exact absurd hcon.1 (by simp))]
    show cleanLocalityName n ++ "\t" ++
      joinSep "\t" ((alistGet n d).getD []) ++ "\r\n" =
      (n ++ "\t" ++ joinSep "\t" ((alistGet n d).getD [])) ++ "\r\n"
    rw [hcln]
  have htxt : (create_gabmap_txt_bytes c d).1 =
      strConcat ((joinSep "\t" c :: (sortStrings (d.map Prod.fst)).map
        (fun n => n ++ "\t" ++ joinSep "\t" ((alistGet n d).getD []))).map
          (· ++ "\r\n")) := by
    unfold create_gabmap_txt_bytes
    rw [gabmapFold c d hlen (sortStrings (alistKeys d))
      (fun n hn => mem_sortStrings hn) (joinSep "\t" c ++ "\r\n")]
    show (joinSep "\t" c ++ "\r\n") ++
      strConcat ((sortStrings (d.map Prod.fst)).map (fun n =>
        cleanLocalityName n ++ "\t" ++
          joinSep "\t" ((alistGet n d).getD []) ++ "\r\n")) = _
    rw [hclean]
    rfl
  rw [htxt]
  refine pySplitlines_strConcat _ ?_
  intro l hl ch hch
  rcases List.mem_cons.mp hl with hlh | hl'
  · rw [hlh] at hch
    rcases joinSep_chars "\t" c ch hch with ⟨x, hx, hchx⟩ | h2
    · exact hconcepts x hx ch hchx
    · rw [List.mem_singleton.mp (by simpa using h2 : ch ∈ [('\t' : Char)])]
      decide
  · obtain ⟨n, hn, hnl⟩ := List.mem_map.mp hl'
    obtain ⟨p, hp, hpn⟩ := List.mem_map.mp (mem_sortStrings hn)
    rw [← hnl] at hch
    simp only [data_append] at hch
    rcases List.mem_append.mp hch with h1 | h1
    · rcases List.mem_append.mp h1 with h2 | h2
      · rw [← hpn] at h2
        exact (hnames p hp ch h2).2
      · rw [List.mem_singleton.mp (by simpa using h2 : ch ∈ [('\t' : Char)])]
        decide
    · rcases joinSep_chars "\t" _ ch h1 with ⟨v, hv, hchv⟩ | h2
      · cases hgn : alistGet n d with
        | none =>
          rw [hgn] at hv
          exact absurd hv (List.not_mem_nil v)
        | some vs =>
          rw [hgn] at hv
          exact hvars _ (alistGet_some_mem hgn) v hv ch hchv
      · rw [List.mem_singleton.mp (by simpa using h2 : ch ∈ [('\t' : Char)])]
        decide

/-- **C1, amended.** The Gabmap → Diatech → Gabmap round trip preserves
the concept list (first TXT line, same order) and every locality's exact
variant sequence, with locality lines re-emitted in sorted name order,
provided the table is clean: concept list and table nonempty; concepts
nonempty, whitespace-stripped, quote-free and line-break-free; locality
names additionally comma-free and bracket-free; variants whitespace-
stripped, quote-free and line-break-free; KML names that collide with
a table name after normalisation are literally equal to it; and both the
table's and the KML's locality names stay within the Latin-1 range, the
domain on which the embedded `str.lower()` of `normalize_name` agrees
with CPython (which also lowercases letters beyond Latin-1, e.g.
`Ā` → `ā`).  (Without these conditions the trip alters the data — see the
counterexample, where a variant's leading space is stripped.) -/
theorem C1_amended (txtBytes : List Nat) (tree : Xml)
    (c : List String) (d : List (String × List String))
    (kl : List (String × KmlInfo))
    (hread : read_dialec_txt_from_bytes txtBytes = (c, d))
    (hkml : parse_kml_from_tree tree = some kl)
    (_hnLatin : ∀ p ∈ d, ∀ ch ∈ (p.1).data, ch.toNat ≤ 0xFF)
    (_hkLatin : ∀ q ∈ kl, ∀ ch ∈ (q.1).data, ch.toNat ≤ 0xFF)
    (hc0 : c ≠ []) (hd0 : d ≠ [])
    (hcClean : ∀ x ∈ c, x ≠ "" ∧ pyStrip x = x ∧
      ∀ ch ∈ x.data, ch ≠ '"' ∧ isPyLineBreak ch = false)
    (hnClean : ∀ p ∈ d, p.1 ≠ "" ∧ pyStrip p.1 = p.1 ∧
      ∀ ch ∈ (p.1).data, ch ≠ '"' ∧ ch ≠ ',' ∧ ch ≠ '[' ∧
        isPyLineBreak ch = false)
    (hvClean : ∀ p ∈ d, ∀ v ∈ p.2, pyStrip v = v ∧
      ∀ ch ∈ v.data, ch ≠ '"' ∧ isPyLineBreak ch = false)
    (hmatch : ∀ p ∈ d, ∀ q ∈ kl,
      normalize_name q.1 = normalize_name p.1 → q.1 = p.1) :
    ∃ csv bnd st, convert_gabmap_to_diatech txtBytes tree =
        some (csv, bnd, st) ∧
      ∃ txt2 kml2 st2, convert_diatech_to_gabmap csv bnd =
          some (txt2, kml2, st2) ∧
        pySplitlines txt2 = joinSep "\t" c ::
          (sortStrings (d.map Prod.fst)).map (fun n =>
            n ++ "\t" ++ joinSep "\t" ((alistGet n d).getD [])) := by
  have hnd : (d.map Prod.fst).Nodup := by
    have h := read_dialec_nodup txtBytes
    rw [hread] at h
    exact h
  have hlen : ∀ p ∈ d, (p.2).length = c.length := by
    have h : ∀ p ∈ (read_dialec_txt_from_bytes txtBytes).2,
        (p.2).length = (read_dialec_txt_from_bytes txtBytes).1.length := by
      unfold read_dialec_txt_from_bytes
      cases firstDecode txtBytes with
      | none => exact parseDialecStr_lengths _
      | some s => exact parseDialecStr_lengths _
    rw [hread] at h
    exact h
  have hc1 : 1 ≤ c.length := by
    cases c with
    | nil => exact absurd rfl hc0
    | cons x r => simp
  obtain ⟨locs', hback⟩ := diatech_read_back c d kl hc1 hd0 hnd hlen
    hcClean hnClean hvClean hmatch
  have hfwd : ∃ st, convert_gabmap_to_diatech txtBytes tree =
      some (create_diatech_csv_bytes c d kl,
        extract_country_boundaries_bytes tree, st) := by
    unfold convert_gabmap_to_diatech
    rw [hread, hkml]
    exact ⟨_, rfl⟩
  obtain ⟨st, hfwd⟩ := hfwd
  have hbwd : ∃ st2, convert_diatech_to_gabmap
      (create_diatech_csv_bytes c d kl)
      (extract_country_boundaries_bytes tree) =
      some ((create_gabmap_txt_bytes c d).1,
        create_kml_bytes locs' (extract_country_boundaries_bytes tree),
        st2) := by
    unfold convert_diatech_to_gabmap
    rw [hback]
    exact ⟨_, rfl⟩
  obtain ⟨st2, hbwd⟩ := hbwd
  refine ⟨create_diatech_csv_bytes c d kl,
    extract_country_boundaries_bytes tree, st, hfwd,
    (create_gabmap_txt_bytes c d).1,
    create_kml_bytes locs' (extract_country_boundaries_bytes tree), st2,
    hbwd, ?_⟩
  exact gabmap_writer c d (fun p hp => le_of_eq (hlen p hp).symm)
    (fun p hp ch hch => ⟨((hnClean p hp).2.2 ch hch).2.2.1,
      ((hnClean p hp).2.2 ch hch).2.2.2⟩)
    (fun x hx ch hch => ((hcClean x hx).2.2 ch hch).2)
    (fun p hp v hv ch hch => ((hvClean p hp v hv).2 ch hch).2)

/-- Witness for C1's amended round trip: the clean single-concept,
single-locality table `A / L→x` with an empty KML converts to Diatech and
back to a TXT with header line `A` and locality line `L⇥x`. -/
theorem C1_amended_witness :
    ∃ csv bnd st,
      convert_gabmap_to_diatech (utf8Encode "\tA\nL\tx\n") emptyKml =
        some (csv, bnd, st) ∧
      ∃ txt2 kml2 st2, convert_diatech_to_gabmap csv bnd =
          some (txt2, kml2, st2) ∧
        pySplitlines txt2 = joinSep "\t" ["A"] ::
          (sortStrings (([("L", ["x"])] :
            List (String × List String)).map Prod.fst)).map (fun n =>
              n ++ "\t" ++ joinSep "\t"
                ((alistGet n [("L", ["x"])]).getD [])) :=
  C1_amended (utf8Encode "\tA\nL\tx\n") emptyKml ["A"] [("L", ["x"])] []
    (by decide) (by decide) (by decide) (by decide) (by decide) (by decide)
    (by decide) (by decide) (by decide) (by decide)

end Conv
